import Mathlib

/-!
Verification of the singer-python message protocol (`singer/__init__.py`).

The embedding models:
* JSON-serializable Python values (`Json`), as a mutually inductive tree
  (string-keyed objects, arrays, strings, integers, booleans, `None`);
* the four message classes and their `asdict` canonical mappings;
* `json.dumps` with its default separators and `ensure_ascii=True` escaping
  (`json_dumps`), and `json.loads` (`json_loads`);
* `format_message`, `parse_message`, `_required_key` (as `required_key`),
  `write_message` and `write_schema` (the latter returning the line that
  would be written to stdout, or the error raised before writing).

Model restrictions (none of the verified claims depend on these):
* JSON numbers are modeled as integers; float syntax (fractions, exponents,
  NaN/Infinity) is rejected by the model's loader, and Python's bool/int
  cross-type equality (`True == 1`) is not modeled;
* strings are sequences of Unicode scalar values, so lone surrogates are
  rejected by the model's loader;
* the model's loader accepts leading zeros in numbers, which CPython's
  loader rejects.
-/

deriving instance DecidableEq for Except

namespace Singer

/-! ## JSON value model -/

mutual
/-- A JSON-serializable Python value: `None`, `bool`, `int`, `str`,
`list`, or a string-keyed `dict` in insertion order. -/
inductive Json : Type where
  | null
  | bool (b : Bool)
  | num (n : Int)
  | str (s : String)
  | arr (items : JsonList)
  | obj (entries : JsonObj)
  deriving DecidableEq
/-- A list of JSON values. -/
inductive JsonList : Type where
  | nil
  | cons (hd : Json) (tl : JsonList)
  deriving DecidableEq
/-- The entries of a string-keyed JSON object, in insertion order. -/
inductive JsonObj : Type where
  | nil
  | cons (k : String) (v : Json) (tl : JsonObj)
  deriving DecidableEq
end

/-- Build a `JsonList` from a Lean list (notation helper). -/
def jList : List Json → JsonList
  | [] => .nil
  | j :: tl => .cons j (jList tl)

/-- Build a `JsonObj` from a Lean association list (notation helper). -/
def jEntries : List (String × Json) → JsonObj
  | [] => .nil
  | (k, v) :: tl => .cons k v (jEntries tl)

/-- A JSON array literal. -/
def jarr (l : List Json) : Json := .arr (jList l)

/-- A JSON object literal. -/
def jobj (l : List (String × Json)) : Json := .obj (jEntries l)

/-- Python `k in d` for a dict `d`. -/
def JsonObj.hasKey : JsonObj → String → Bool
  | .nil, _ => false
  | .cons k' _ tl, k => if k' = k then true else tl.hasKey k

/-- Python `d[k]` lookup (first occurrence; entry lists built from Python
dicts never repeat a key). -/
def JsonObj.lookup : JsonObj → String → Option Json
  | .nil, _ => none
  | .cons k' v tl, k => if k' = k then some v else tl.lookup k

/-- Python `d[k] = v`: replace in place if the key exists, else append. -/
def JsonObj.insert : JsonObj → String → Json → JsonObj
  | .nil, k, v => .cons k v .nil
  | .cons k' v' tl, k, v =>
    if k' = k then .cons k' v tl else .cons k' v' (tl.insert k v)

/-- Concatenation of entry lists. -/
def JsonObj.appendO : JsonObj → JsonObj → JsonObj
  | .nil, o => o
  | .cons k v tl, o => .cons k v (tl.appendO o)

/-- No key occurs twice (true of every entry list built from a Python dict). -/
def JsonObj.nodupKeys : JsonObj → Bool
  | .nil => true
  | .cons k _ tl => !tl.hasKey k && tl.nodupKeys

mutual
/-- Well-formed values: every object in the tree has pairwise distinct keys.
Every value built from an actual Python dict satisfies this. -/
def Json.wf : Json → Bool
  | .null | .bool _ | .num _ | .str _ => true
  | .arr l => l.wfL
  | .obj o => o.nodupKeys && o.wfO
def JsonList.wfL : JsonList → Bool
  | .nil => true
  | .cons j tl => j.wf && tl.wfL
def JsonObj.wfO : JsonObj → Bool
  | .nil => true
  | .cons _ v tl => v.wf && tl.wfO
end

/-! ## Structural equality of Python values

Python `==` on dicts is key-order-insensitive; on lists it is
order-sensitive.  We model it by comparing key-sorted normal forms. -/

/-- Total order on char lists (used only to pick a canonical key order). -/
def charListLe : List Char → List Char → Bool
  | [], _ => true
  | _ :: _, [] => false
  | a :: as, b :: bs => if a = b then charListLe as bs else decide (a.toNat ≤ b.toNat)

/-- Key order for the canonical form of an object. -/
def keyLe (a b : String) : Bool := charListLe a.data b.data

/-- Insert an entry into a key-sorted entry list. -/
def JsonObj.insertSorted (k : String) (v : Json) : JsonObj → JsonObj
  | .nil => .cons k v .nil
  | .cons k' v' tl =>
    if keyLe k k' then .cons k v (.cons k' v' tl)
    else .cons k' v' (tl.insertSorted k v)

/-- Sort an entry list by key (insertion sort). -/
def JsonObj.sortEntries : JsonObj → JsonObj
  | .nil => .nil
  | .cons k v tl => tl.sortEntries.insertSorted k v

mutual
/-- Canonical form: objects sorted by key at every level. Two Python values
compare `==` exactly when their canonical forms coincide. -/
def Json.norm : Json → Json
  | .null => .null
  | .bool b => .bool b
  | .num n => .num n
  | .str s => .str s
  | .arr l => .arr l.normL
  | .obj o => .obj o.normO.sortEntries
def JsonList.normL : JsonList → JsonList
  | .nil => .nil
  | .cons j tl => .cons j.norm tl.normL
def JsonObj.normO : JsonObj → JsonObj
  | .nil => .nil
  | .cons k v tl => .cons k v.norm tl.normO
end

/-- Python `==` on JSON-serializable values: deep structural equality,
key-order-insensitive for dicts, order-sensitive for lists. -/
def pyEq (a b : Json) : Prop := a.norm = b.norm

instance (a b : Json) : Decidable (pyEq a b) :=
  inferInstanceAs (Decidable (a.norm = b.norm))

/-- Python `x == s` where `s` is a string: true only for an equal string. -/
def pyEqStr (v : Json) (s : String) : Bool :=
  match v with
  | .str t => decide (t = s)
  | _ => false

/-! ## Message model (`Message` and its four subclasses) -/

/-- The four message variants.  Constructors accept arbitrary values, just as
the Python `__init__` methods assign their arguments unchecked.  The absent
`version` of a `RecordMessage` is Python's `None`, i.e. `Json.null`. -/
inductive Message : Type where
  | RecordMessage (stream : Json) (record : Json) (version : Json)
  | SchemaMessage (stream : Json) (schema : Json) (key_properties : Json)
  | StateMessage (value : Json)
  | ActivateVersionMessage (stream : Json) (version : Json)
  deriving DecidableEq

/-- `Message.asdict`: the canonical mapping of a message.  For a record,
`version` is appended only when it `is not None`. -/
def Message.asdict : Message → Json
  | .RecordMessage stream record version =>
    .obj (.cons "type" (.str "RECORD") (.cons "stream" stream (.cons "record" record
      (if version = Json.null then JsonObj.nil else .cons "version" version .nil))))
  | .SchemaMessage stream schema key_properties =>
    .obj (.cons "type" (.str "SCHEMA") (.cons "stream" stream (.cons "schema" schema
      (.cons "key_properties" key_properties .nil))))
  | .StateMessage value =>
    .obj (.cons "type" (.str "STATE") (.cons "value" value .nil))
  | .ActivateVersionMessage stream version =>
    .obj (.cons "type" (.str "ACTIVATE_VERSION") (.cons "stream" stream
      (.cons "version" version .nil)))

/-- `Message.__eq__`: `isinstance(other, Message) and self.asdict() == other.asdict()`.
Both sides are messages here, so the `isinstance` test always holds. -/
def Message.eq (self other : Message) : Prop := pyEq self.asdict other.asdict

instance (m1 m2 : Message) : Decidable (Message.eq m1 m2) :=
  inferInstanceAs (Decidable (pyEq _ _))

/-- All field values of the message are well-formed Python values. -/
def Message.fieldsWf : Message → Bool
  | .RecordMessage stream record version => stream.wf && record.wf && version.wf
  | .SchemaMessage stream schema key_properties => stream.wf && schema.wf && key_properties.wf
  | .StateMessage value => value.wf
  | .ActivateVersionMessage stream version => stream.wf && version.wf

/-! ## Serializer: `json.dumps` with default options -/

/-- Lower-case hex digit, as emitted by `json.dumps`'s `\uXXXX` escapes. -/
def hexDig (d : Nat) : Char :=
  if d < 10 then Char.ofNat (48 + d) else Char.ofNat (87 + d)

/-- Four-digit hex rendering of a code unit below `0x10000`. -/
def hex4 (n : Nat) : List Char :=
  [hexDig (n / 4096 % 16), hexDig (n / 256 % 16), hexDig (n / 16 % 16), hexDig (n % 16)]

/-- `ensure_ascii=True` escaping of one character: the two-character escapes
for quote, backslash and control shorthands, `\uXXXX` for other control and
non-ASCII characters, and a surrogate pair for astral characters. -/
def escapeChar (c : Char) : List Char :=
  if c = '"' then ['\\', '"']
  else if c = '\\' then ['\\', '\\']
  else if c.toNat = 10 then ['\\', 'n']
  else if c.toNat = 13 then ['\\', 'r']
  else if c.toNat = 9 then ['\\', 't']
  else if c.toNat = 8 then ['\\', 'b']
  else if c.toNat = 12 then ['\\', 'f']
  else if c.toNat < 0x20 then '\\' :: 'u' :: hex4 c.toNat
  else if c.toNat < 0x7F then [c]
  else if c.toNat < 0x10000 then '\\' :: 'u' :: hex4 c.toNat
  else '\\' :: 'u' :: hex4 (0xD800 + (c.toNat - 0x10000) / 0x400) ++
       '\\' :: 'u' :: hex4 (0xDC00 + (c.toNat - 0x10000) % 0x400)

/-- Escape every character of a string body. -/
def escapeList : List Char → List Char
  | [] => []
  | c :: cs => escapeChar c ++ escapeList cs

/-- A JSON string literal: quoted, escaped body. -/
def dumpString (s : String) : List Char :=
  '"' :: (escapeList s.data ++ ['"'])

/-- Decimal digit character. -/
def digitChar (d : Nat) : Char := Char.ofNat (48 + d)

/-- Decimal rendering of a natural number (`fuel` bounds the recursion;
`natChars` supplies enough). -/
def natToChars : Nat → Nat → List Char
  | 0, _ => []
  | fuel + 1, n =>
    if n < 10 then [digitChar n] else natToChars fuel (n / 10) ++ [digitChar (n % 10)]

/-- Decimal rendering of a natural number. -/
def natChars (n : Nat) : List Char := natToChars (n + 1) n

/-- Decimal rendering of an integer, as `json.dumps` prints Python ints. -/
def intChars (n : Int) : List Char :=
  if n < 0 then '-' :: natChars n.natAbs else natChars n.natAbs

/-- The characters of the `null` keyword. -/
def nullChars : List Char := 'n' :: 'u' :: 'l' :: 'l' :: []

/-- The characters of the `true` keyword. -/
def trueChars : List Char := 't' :: 'r' :: 'u' :: 'e' :: []

/-- The characters of the `false` keyword. -/
def falseChars : List Char := 'f' :: 'a' :: 'l' :: 's' :: 'e' :: []

mutual
/-- `json.dumps` with the default separators `", "` and `": "`. -/
def Json.dump : Json → List Char
  | .null => nullChars
  | .bool true => trueChars
  | .bool false => falseChars
  | .num n => intChars n
  | .str s => dumpString s
  | .arr .nil => ['[', ']']
  | .arr (.cons j tl) => '[' :: (j.dump ++ tl.dumpTail ++ [']'])
  | .obj .nil => ['{', '}']
  | .obj (.cons k v tl) =>
    '{' :: (dumpString k ++ (':' :: ' ' :: v.dump) ++ tl.dumpTail ++ ['}'])
/-- Remaining array items, each preceded by the `", "` separator. -/
def JsonList.dumpTail : JsonList → List Char
  | .nil => []
  | .cons j tl => ',' :: ' ' :: (j.dump ++ tl.dumpTail)
/-- Remaining object entries, each preceded by the `", "` separator. -/
def JsonObj.dumpTail : JsonObj → List Char
  | .nil => []
  | .cons k v tl => ',' :: ' ' :: (dumpString k ++ (':' :: ' ' :: v.dump) ++ tl.dumpTail)
end

/-- The items of a nonempty array, joined by `", "`. -/
def JsonList.dumpElems : JsonList → List Char
  | .nil => []
  | .cons j tl => j.dump ++ tl.dumpTail

/-- The entries of a nonempty object, joined by `", "`. -/
def JsonObj.dumpEntries : JsonObj → List Char
  | .nil => []
  | .cons k v tl => dumpString k ++ (':' :: ' ' :: v.dump) ++ tl.dumpTail

/-- `json.dumps` producing a string. -/
def json_dumps (j : Json) : String := String.mk j.dump

/-- `format_message(message)`: `json.dumps(message.asdict())`. -/
def format_message (m : Message) : String := json_dumps m.asdict

/-- `write_message`: the line written to stdout (message plus newline). -/
def write_message (m : Message) : String := format_message m ++ "\n"

/-! ## Errors raised by the codec -/

/-- The exceptions the Python code can raise while parsing or writing:
`json.JSONDecodeError` from `json.loads`; the generic
`Exception("Message is missing required key '<k>': ...")` from
`_required_key`; `TypeError` from `k in msg` or `msg[k]` on values that do
not support them; `KeyError` from `d[k]` on an absent dict key; and the
`Exception("key_properties must be a string or list of strings")` from
`write_schema`. -/
inductive PyErr : Type where
  | jsonDecodeError
  | missingKey (k : String)
  | typeError
  | keyError (k : String)
  | keyPropertiesError
  deriving DecidableEq

/-! ## Parser: `json.loads` -/

/-- JSON whitespace (the characters `json.loads` skips between tokens). -/
def isWs (c : Char) : Bool :=
  c = ' ' || c.toNat = 9 || c.toNat = 10 || c.toNat = 13

/-- Drop leading JSON whitespace. -/
def skipWs : List Char → List Char
  | [] => []
  | c :: cs => if isWs c then skipWs cs else c :: cs

/-- Value of one hex digit (either case). -/
def parseHexDigit (c : Char) : Option Nat :=
  if 48 ≤ c.toNat ∧ c.toNat ≤ 57 then some (c.toNat - 48)
  else if 97 ≤ c.toNat ∧ c.toNat ≤ 102 then some (c.toNat - 87)
  else if 65 ≤ c.toNat ∧ c.toNat ≤ 70 then some (c.toNat - 55)
  else none

/-- Value of a four-digit hex escape. -/
def parseHex4 (h1 h2 h3 h4 : Char) : Option Nat :=
  match parseHexDigit h1, parseHexDigit h2, parseHexDigit h3, parseHexDigit h4 with
  | some a, some b, some c, some d => some (((a * 16 + b) * 16 + c) * 16 + d)
  | _, _, _, _ => none

/-- Prepend a character to the string under construction. -/
def consFst (c : Char) : Option (List Char × List Char) → Option (List Char × List Char)
  | none => none
  | some (s, r) => some (c :: s, r)

/-- Parse the body of a JSON string (after the opening quote) up to and
including the closing quote, decoding escapes; one unit of fuel per decoded
character suffices.  Raw control characters are rejected (strict mode), and
`\uXXXX` high/low surrogate pairs are recombined. -/
def parseStringBody : Nat → List Char → Option (List Char × List Char)
  | 0, _ => none
  | fuel + 1, cs =>
    match cs with
    | [] => none
    | c :: rest =>
      if c = '"' then some ([], rest)
      else if c = '\\' then
        match rest with
        | [] => none
        | e :: rest2 =>
          if e = '"' then consFst '"' (parseStringBody fuel rest2)
          else if e = '\\' then consFst '\\' (parseStringBody fuel rest2)
          else if e = '/' then consFst '/' (parseStringBody fuel rest2)
          else if e = 'b' then consFst (Char.ofNat 8) (parseStringBody fuel rest2)
          else if e = 'f' then consFst (Char.ofNat 12) (parseStringBody fuel rest2)
          else if e = 'n' then consFst (Char.ofNat 10) (parseStringBody fuel rest2)
          else if e = 'r' then consFst (Char.ofNat 13) (parseStringBody fuel rest2)
          else if e = 't' then consFst (Char.ofNat 9) (parseStringBody fuel rest2)
          else if e = 'u' then
            match rest2 with
            | h1 :: h2 :: h3 :: h4 :: rest3 =>
              match parseHex4 h1 h2 h3 h4 with
              | none => none
              | some n =>
                if n < 0xD800 then consFst (Char.ofNat n) (parseStringBody fuel rest3)
                else if n ≤ 0xDBFF then
                  match rest3 with
                  | '\\' :: 'u' :: g1 :: g2 :: g3 :: g4 :: rest4 =>
                    match parseHex4 g1 g2 g3 g4 with
                    | none => none
                    | some m =>
                      if 0xDC00 ≤ m ∧ m ≤ 0xDFFF then
                        consFst (Char.ofNat (0x10000 + (n - 0xD800) * 0x400 + (m - 0xDC00)))
                          (parseStringBody fuel rest4)
                      else none
                  | _ => none
                else if n ≤ 0xDFFF then none
                else consFst (Char.ofNat n) (parseStringBody fuel rest3)
            | _ => none
          else none
      else if c.toNat < 0x20 then none
      else consFst c (parseStringBody fuel rest)

/-- Split off the leading run of decimal digits. -/
def takeDigits : List Char → List Char × List Char
  | [] => ([], [])
  | c :: cs =>
    if c.isDigit then
      let p := takeDigits cs
      (c :: p.1, p.2)
    else ([], c :: cs)

/-- Value of a digit character. -/
def digitVal (c : Char) : Nat := c.toNat - 48

/-- Decimal value of a digit run (left fold). -/
def digitsToNat : List Char → Nat → Nat
  | [], acc => acc
  | c :: cs, acc => digitsToNat cs (acc * 10 + digitVal c)

/-- Parse an integer literal: an optional minus sign and a digit run. -/
def parseNumber (cs : List Char) : Option (Json × List Char) :=
  if cs.head? = some '-' then
    let p := takeDigits cs.tail
    if p.1.isEmpty then none else some (.num (-(digitsToNat p.1 0 : Int)), p.2)
  else
    let p := takeDigits cs
    if p.1.isEmpty then none else some (.num ((digitsToNat p.1 0 : Int)), p.2)

mutual
/-- Parse one JSON value after optional whitespace, returning it and the
unconsumed remainder.  Fuel bounds the nesting recursion; `Json.size` of the
value suffices. -/
def parseValue : Nat → List Char → Option (Json × List Char)
  | 0, _ => none
  | fuel + 1, cs =>
    match skipWs cs with
    | [] => none
    | c :: rest =>
      if c = 'n' then
        match rest with
        | 'u' :: 'l' :: 'l' :: r => some (.null, r)
        | _ => none
      else if c = 't' then
        match rest with
        | 'r' :: 'u' :: 'e' :: r => some (.bool true, r)
        | _ => none
      else if c = 'f' then
        match rest with
        | 'a' :: 'l' :: 's' :: 'e' :: r => some (.bool false, r)
        | _ => none
      else if c = '"' then
        match parseStringBody rest.length rest with
        | some (chars, r) => some (.str (String.mk chars), r)
        | none => none
      else if c = '[' then
        match skipWs rest with
        | [] => none
        | c2 :: r2 =>
          if c2 = ']' then some (.arr .nil, r2)
          else
            match parseElems fuel (c2 :: r2) with
            | some (l, r3) => some (.arr l, r3)
            | none => none
      else if c = '{' then
        match skipWs rest with
        | [] => none
        | c2 :: r2 =>
          if c2 = '}' then some (.obj .nil, r2)
          else
            match parseMembers fuel (c2 :: r2) .nil with
            | some (o, r3) => some (.obj o, r3)
            | none => none
      else if c = '-' ∨ c.isDigit then parseNumber (c :: rest)
      else none
/-- Parse the items of a nonempty array up to and including `]`. -/
def parseElems : Nat → List Char → Option (JsonList × List Char)
  | 0, _ => none
  | fuel + 1, cs =>
    match parseValue fuel cs with
    | none => none
    | some (v, r) =>
      match skipWs r with
      | ',' :: r2 =>
        match parseElems fuel r2 with
        | some (l, r3) => some (.cons v l, r3)
        | none => none
      | ']' :: r2 => some (.cons v .nil, r2)
      | _ => none
/-- Parse the members of a nonempty object up to and including `}`,
accumulating entries with dict assignment (`acc[k] = v`). -/
def parseMembers : Nat → List Char → JsonObj → Option (JsonObj × List Char)
  | 0, _, _ => none
  | fuel + 1, cs, acc =>
    match skipWs cs with
    | '"' :: rest =>
      match parseStringBody rest.length rest with
      | none => none
      | some (kchars, r) =>
        match skipWs r with
        | ':' :: r2 =>
          match parseValue fuel r2 with
          | none => none
          | some (v, r3) =>
            match skipWs r3 with
            | ',' :: r4 => parseMembers fuel r4 (acc.insert (String.mk kchars) v)
            | '}' :: r4 => some (acc.insert (String.mk kchars) v, r4)
            | _ => none
        | _ => none
    | _ => none
end

/-- `json.loads`: parse one JSON document; anything but trailing whitespace
after it is an error. -/
def json_loads (s : String) : Except PyErr Json :=
  match parseValue (s.data.length + 1) s.data with
  | none => .error .jsonDecodeError
  | some (v, rest) => if (skipWs rest).isEmpty then .ok v else .error .jsonDecodeError

/-! ## `_required_key` and `parse_message` -/

/-- Does `needle` start `hay`? -/
def leadEq : List Char → List Char → Bool
  | [], _ => true
  | _ :: _, [] => false
  | a :: as, b :: bs => a = b && leadEq as bs

/-- Does `needle` occur contiguously inside `hay`?  (Python `sub in str`.) -/
def subChain (needle : List Char) : List Char → Bool
  | [] => needle.isEmpty
  | c :: rest => leadEq needle (c :: rest) || subChain needle rest

/-- Python `k not in list` membership: a string key equals only an equal
string element. -/
def JsonList.memStr : JsonList → String → Bool
  | .nil, _ => false
  | .cons (.str s) tl, k => decide (s = k) || tl.memStr k
  | .cons _ tl, k => tl.memStr k

/-- Python `k in msg` for the decoded value: key test for dicts, element
test for lists, substring test for strings, `TypeError` otherwise. -/
def pyContains (m : Json) (k : String) : Except PyErr Bool :=
  match m with
  | .obj entries => .ok (entries.hasKey k)
  | .arr items => .ok (items.memStr k)
  | .str s => .ok (subChain k.data s.data)
  | _ => .error .typeError

/-- Python `msg[k]` with a string subscript: dict lookup; `TypeError` on
strings, lists and scalars. -/
def pyGetItem (m : Json) (k : String) : Except PyErr Json :=
  match m with
  | .obj entries =>
    match entries.lookup k with
    | some v => .ok v
    | none => .error (.keyError k)
  | _ => .error .typeError

/-- `_required_key(msg, k)`: raise the missing-key `Exception` when
`k not in msg`, else return `msg[k]`. -/
def required_key (msg : Json) (k : String) : Except PyErr Json := do
  let b ← pyContains msg k
  if b then pyGetItem msg k else .error (.missingKey k)

/-- Python `msg.get(k)` (default `None`).  `parse_message` reaches it only
after `required_key` has succeeded, so `msg` is a dict there. -/
def pyGet (m : Json) (k : String) : Json :=
  match m with
  | .obj entries => (entries.lookup k).getD .null
  | _ => .null

/-- `parse_message(msg)`: decode the line, read the required `type` key and
dispatch on it.  Tags other than `RECORD`, `SCHEMA` and `STATE` (including
`ACTIVATE_VERSION`) fall off the `elif` chain and return `None`. -/
def parse_message (msg : String) : Except PyErr (Option Message) := do
  let obj ← json_loads msg
  let msg_type ← required_key obj "type"
  if pyEqStr msg_type "RECORD" then do
    let stream ← required_key obj "stream"
    let record ← required_key obj "record"
    pure (some (.RecordMessage stream record (pyGet obj "version")))
  else if pyEqStr msg_type "SCHEMA" then do
    let stream ← required_key obj "stream"
    let schema ← required_key obj "schema"
    let key_properties ← required_key obj "key_properties"
    pure (some (.SchemaMessage stream schema key_properties))
  else if pyEqStr msg_type "STATE" then do
    let value ← required_key obj "value"
    pure (some (.StateMessage value))
  else
    pure none

/-- `write_schema(stream_name, schema, key_properties)`: coerce a bare
string to a one-element list, raise unless the result is a list, then write
the schema message.  The returned string is the line written to stdout; the
error is raised before anything is written.  (Python also coerces `bytes`,
which JSON-serializable values cannot be.) -/
def write_schema (stream_name schema key_properties : Json) : Except PyErr String :=
  let kp := match key_properties with
    | .str s => Json.arr (.cons (.str s) .nil)
    | other => other
  match kp with
  | .arr items => .ok (write_message (.SchemaMessage stream_name schema (.arr items)))
  | _ => .error .keyPropertiesError

/-! ## Whitespace lemmas -/

theorem skipWs_not_ws {c : Char} (cs : List Char) (h : isWs c = false) :
    skipWs (c :: cs) = c :: cs := by
  simp [skipWs, h]

theorem skipWs_ws {c : Char} (cs : List Char) (h : isWs c = true) :
    skipWs (c :: cs) = skipWs cs := by
  simp [skipWs, h]

theorem parseValue_skip_space (fuel : Nat) (cs : List Char) :
    parseValue fuel (' ' :: cs) = parseValue fuel cs := by
  cases fuel with
  | zero => rfl
  | succ fuel => rw [parseValue, parseValue, skipWs_ws cs (by decide)]

theorem parseElems_skip_space (fuel : Nat) (cs : List Char) :
    parseElems fuel (' ' :: cs) = parseElems fuel cs := by
  cases fuel with
  | zero => rfl
  | succ fuel => rw [parseElems, parseElems, parseValue_skip_space]

theorem parseMembers_skip_space (fuel : Nat) (cs : List Char) (acc : JsonObj) :
    parseMembers fuel (' ' :: cs) acc = parseMembers fuel cs acc := by
  cases fuel with
  | zero => rfl
  | succ fuel => rw [parseMembers, parseMembers, skipWs_ws cs (by decide)]

/-! ## String escape round trip -/

theorem parseHexDigit_hexDig : ∀ d < 16, parseHexDigit (hexDig d) = some d := by decide

theorem parseHex4_hex4 (n : Nat) (h : n < 65536) :
    parseHex4 (hexDig (n / 4096 % 16)) (hexDig (n / 256 % 16))
      (hexDig (n / 16 % 16)) (hexDig (n % 16)) = some n := by
  rw [parseHex4, parseHexDigit_hexDig _ (by omega), parseHexDigit_hexDig _ (by omega),
    parseHexDigit_hexDig _ (by omega), parseHexDigit_hexDig _ (by omega)]
  simp only [Option.some.injEq]
  omega

theorem char_valid_nat (c : Char) :
    c.toNat < 0xD800 ∨ (0xE000 ≤ c.toNat ∧ c.toNat < 0x110000) := by
  have h := c.valid
  unfold UInt32.isValidChar Nat.isValidChar at h
  exact h

theorem psb_quote (fuel : Nat) (R : List Char) :
    parseStringBody (fuel + 1) ('"' :: R) = some ([], R) := rfl

theorem psb_esc_quote (fuel : Nat) (R : List Char) :
    parseStringBody (fuel + 1) ('\\' :: '"' :: R) = consFst '"' (parseStringBody fuel R) := rfl

theorem psb_esc_back (fuel : Nat) (R : List Char) :
    parseStringBody (fuel + 1) ('\\' :: '\\' :: R) = consFst '\\' (parseStringBody fuel R) := rfl

theorem psb_esc_n (fuel : Nat) (R : List Char) :
    parseStringBody (fuel + 1) ('\\' :: 'n' :: R) =
      consFst (Char.ofNat 10) (parseStringBody fuel R) := rfl

theorem psb_esc_r (fuel : Nat) (R : List Char) :
    parseStringBody (fuel + 1) ('\\' :: 'r' :: R) =
      consFst (Char.ofNat 13) (parseStringBody fuel R) := rfl

theorem psb_esc_t (fuel : Nat) (R : List Char) :
    parseStringBody (fuel + 1) ('\\' :: 't' :: R) =
      consFst (Char.ofNat 9) (parseStringBody fuel R) := rfl

theorem psb_esc_b (fuel : Nat) (R : List Char) :
    parseStringBody (fuel + 1) ('\\' :: 'b' :: R) =
      consFst (Char.ofNat 8) (parseStringBody fuel R) := rfl

theorem psb_esc_f (fuel : Nat) (R : List Char) :
    parseStringBody (fuel + 1) ('\\' :: 'f' :: R) =
      consFst (Char.ofNat 12) (parseStringBody fuel R) := rfl

theorem psb_esc_u (fuel : Nat) (h1 h2 h3 h4 : Char) (R : List Char) :
    parseStringBody (fuel + 1) ('\\' :: 'u' :: h1 :: h2 :: h3 :: h4 :: R) =
      (match parseHex4 h1 h2 h3 h4 with
      | none => none
      | some n =>
        if n < 0xD800 then consFst (Char.ofNat n) (parseStringBody fuel R)
        else if n ≤ 0xDBFF then
          match R with
          | '\\' :: 'u' :: g1 :: g2 :: g3 :: g4 :: R2 =>
            match parseHex4 g1 g2 g3 g4 with
            | none => none
            | some m =>
              if 0xDC00 ≤ m ∧ m ≤ 0xDFFF then
                consFst (Char.ofNat (0x10000 + (n - 0xD800) * 0x400 + (m - 0xDC00)))
                  (parseStringBody fuel R2)
              else none
          | _ => none
        else if n ≤ 0xDFFF then none
        else consFst (Char.ofNat n) (parseStringBody fuel R)) := rfl

theorem psb_raw (c : Char) (hq : ¬ c = '"') (hb : ¬ c = '\\') (hc : ¬ c.toNat < 0x20)
    (fuel : Nat) (R : List Char) :
    parseStringBody (fuel + 1) (c :: R) = consFst c (parseStringBody fuel R) := by
  simp only [parseStringBody]
  simp [hq, hb, hc]

theorem escapeChar_two (c : Char) {n : Nat} {e : Char}
    (hn : c.toNat = n)
    (he : escapeChar (Char.ofNat n) = ['\\', e])
    (hesc : ∀ fuel R, parseStringBody (fuel + 1) ('\\' :: e :: R) =
      consFst (Char.ofNat n) (parseStringBody fuel R)) (fuel : Nat) (R : List Char) :
    parseStringBody (fuel + 1) (escapeChar c ++ R) = consFst c (parseStringBody fuel R) := by
  have hc : c = Char.ofNat n := by rw [← hn, Char.ofNat_toNat]
  rw [hc, he]
  exact hesc fuel R

theorem parseStringBody_escapeChar (c : Char) (fuel : Nat) (R : List Char) :
    parseStringBody (fuel + 1) (escapeChar c ++ R) = consFst c (parseStringBody fuel R) := by
  have hvalid := char_valid_nat c
  by_cases h1 : c = '"'
  · subst h1
    rw [show escapeChar '"' = ['\\', '"'] from rfl]
    exact psb_esc_quote fuel R
  by_cases h2 : c = '\\'
  · subst h2
    rw [show escapeChar '\\' = ['\\', '\\'] from rfl]
    exact psb_esc_back fuel R
  by_cases h3 : c.toNat = 10
  · exact escapeChar_two c h3 (by decide) psb_esc_n fuel R
  by_cases h4 : c.toNat = 13
  · exact escapeChar_two c h4 (by decide) psb_esc_r fuel R
  by_cases h5 : c.toNat = 9
  · exact escapeChar_two c h5 (by decide) psb_esc_t fuel R
  by_cases h6 : c.toNat = 8
  · exact escapeChar_two c h6 (by decide) psb_esc_b fuel R
  by_cases h7 : c.toNat = 12
  · exact escapeChar_two c h7 (by decide) psb_esc_f fuel R
  by_cases h8 : c.toNat < 0x20
  · have he2 : escapeChar c ++ R = '\\' :: 'u' :: hexDig (c.toNat / 4096 % 16) ::
        hexDig (c.toNat / 256 % 16) :: hexDig (c.toNat / 16 % 16) :: hexDig (c.toNat % 16) :: R := by
      rw [escapeChar]
      simp [h1, h2, h3, h4, h5, h6, h7, h8, hex4]
    have hp := parseHex4_hex4 c.toNat (show c.toNat < 65536 by omega)
    have hd : c.toNat < 0xD800 := by omega
    rw [he2, psb_esc_u]
    simp only [hp, hd, if_true, ite_true, Char.ofNat_toNat]
  by_cases h9 : c.toNat < 0x7F
  · have he : escapeChar c ++ R = c :: R := by
      rw [escapeChar]
      simp [h1, h2, h3, h4, h5, h6, h7, h8, h9]
    rw [he]
    exact psb_raw c h1 h2 h8 fuel R
  by_cases h10 : c.toNat < 0x10000
  · have he2 : escapeChar c ++ R = '\\' :: 'u' :: hexDig (c.toNat / 4096 % 16) ::
        hexDig (c.toNat / 256 % 16) :: hexDig (c.toNat / 16 % 16) :: hexDig (c.toNat % 16) :: R := by
      rw [escapeChar]
      simp [h1, h2, h3, h4, h5, h6, h7, h8, h9, h10, hex4]
    have hp := parseHex4_hex4 c.toNat (by omega)
    rw [he2, psb_esc_u]
    by_cases hd : c.toNat < 0xD800
    · simp only [hp, hd, if_true, ite_true, Char.ofNat_toNat]
    · have he' : 0xE000 ≤ c.toNat := by
        rcases hvalid with h | h
        · omega
        · exact h.1
      have hs2 : ¬ c.toNat ≤ 0xDBFF := by omega
      have hs3 : ¬ c.toNat ≤ 0xDFFF := by omega
      simp only [hp, hd, hs2, hs3, if_false, ite_false, Char.ofNat_toNat, reduceIte]
  · have hlt : c.toNat < 0x110000 := by
      rcases hvalid with h | h
      · omega
      · exact h.2
    have he2 : escapeChar c ++ R = '\\' :: 'u' ::
        hexDig ((0xD800 + (c.toNat - 0x10000) / 0x400) / 4096 % 16) ::
        hexDig ((0xD800 + (c.toNat - 0x10000) / 0x400) / 256 % 16) ::
        hexDig ((0xD800 + (c.toNat - 0x10000) / 0x400) / 16 % 16) ::
        hexDig ((0xD800 + (c.toNat - 0x10000) / 0x400) % 16) :: ('\\' :: 'u' ::
        hexDig ((0xDC00 + (c.toNat - 0x10000) % 0x400) / 4096 % 16) ::
        hexDig ((0xDC00 + (c.toNat - 0x10000) % 0x400) / 256 % 16) ::
        hexDig ((0xDC00 + (c.toNat - 0x10000) % 0x400) / 16 % 16) ::
        hexDig ((0xDC00 + (c.toNat - 0x10000) % 0x400) % 16) :: R) := by
      rw [escapeChar]
      simp [h1, h2, h3, h4, h5, h6, h7, h8, h9, h10, hex4]
    have hp1 := parseHex4_hex4 (0xD800 + (c.toNat - 0x10000) / 0x400) (by omega)
    have hp2 := parseHex4_hex4 (0xDC00 + (c.toNat - 0x10000) % 0x400) (by omega)
    have hh1 : ¬ (0xD800 + (c.toNat - 0x10000) / 0x400 < 0xD800) := by omega
    have hh2 : 0xD800 + (c.toNat - 0x10000) / 0x400 ≤ 0xDBFF := by omega
    have hl : 0xDC00 ≤ 0xDC00 + (c.toNat - 0x10000) % 0x400 ∧
        0xDC00 + (c.toNat - 0x10000) % 0x400 ≤ 0xDFFF := ⟨by omega, by omega⟩
    have harg : 0x10000 + (0xD800 + (c.toNat - 0x10000) / 0x400 - 0xD800) * 0x400 +
        (0xDC00 + (c.toNat - 0x10000) % 0x400 - 0xDC00) = c.toNat := by omega
    rw [he2, psb_esc_u]
    simp only [hp1, hp2, hh1, hh2, hl, if_true, if_false, ite_true, ite_false, and_self,
      reduceIte, harg, Char.ofNat_toNat]

theorem parseStringBody_escapeList (s : List Char) :
    ∀ fuel, s.length + 1 ≤ fuel → ∀ R,
      parseStringBody fuel (escapeList s ++ ('"' :: R)) = some (s, R) := by
  induction s with
  | nil =>
    intro fuel hf R
    obtain ⟨f, rfl⟩ : ∃ f, fuel = f + 1 := ⟨fuel - 1, by omega⟩
    simp [escapeList, parseStringBody]
  | cons c s ih =>
    intro fuel hf R
    obtain ⟨f, rfl⟩ : ∃ f, fuel = f + 1 := ⟨fuel - 1, by omega⟩
    have hlen : s.length + 1 ≤ f := by
      simp only [List.length_cons] at hf
      omega
    have heq : escapeList (c :: s) ++ ('"' :: R) = escapeChar c ++ (escapeList s ++ ('"' :: R)) := by
      simp [escapeList]
    rw [heq]
    rw [parseStringBody_escapeChar]
    rw [ih f hlen R]
    simp [consFst]

set_option maxHeartbeats 1000000 in
theorem escapeChar_length (c : Char) : 1 ≤ (escapeChar c).length := by
  rw [escapeChar]
  split_ifs <;> simp [hex4]

theorem escapeList_length (s : List Char) : s.length ≤ (escapeList s).length := by
  induction s with
  | nil => simp [escapeList]
  | cons c s ih =>
    have := escapeChar_length c
    simp only [escapeList, List.length_append, List.length_cons]
    omega

/-! ## Number round trip -/

/-- The head of `cs` (if any) is not a decimal digit, so a digit run that
`cs` follows ends before `cs`. -/
def headNotDigit : List Char → Bool
  | [] => true
  | c :: _ => !c.isDigit

theorem digitChar_isDigit (n : Nat) (h : n < 10) : (digitChar n).isDigit = true := by
  interval_cases n <;> decide

theorem natToChars_all_digits : ∀ fuel n, ∀ c ∈ natToChars fuel n, c.isDigit = true := by
  intro fuel
  induction fuel with
  | zero => intro n c hc; simp [natToChars] at hc
  | succ fuel ih =>
    intro n c hc
    rw [natToChars] at hc
    by_cases h : n < 10
    · simp [h] at hc
      rw [hc]
      exact digitChar_isDigit n h
    · simp [h, List.mem_append] at hc
      rcases hc with hc | hc
      · exact ih _ c hc
      · rw [hc]
        exact digitChar_isDigit _ (Nat.mod_lt _ (by omega))

theorem natToChars_ne_nil (fuel n : Nat) : natToChars (fuel + 1) n ≠ [] := by
  rw [natToChars]
  by_cases h : n < 10 <;> simp [h]

theorem takeDigits_append (ds : List Char) (hds : ∀ c ∈ ds, c.isDigit = true) :
    ∀ R, headNotDigit R = true → takeDigits (ds ++ R) = (ds, R) := by
  induction ds with
  | nil =>
    intro R hR
    cases R with
    | nil => rfl
    | cons c cs =>
      simp [headNotDigit] at hR
      simp [takeDigits, hR]
  | cons d ds ih =>
    intro R hR
    have hd : d.isDigit = true := hds d (by simp)
    have ihh := ih (fun c hc => hds c (by simp [hc])) R hR
    simp [takeDigits, hd, ihh]

theorem digitsToNat_append (l : List Char) (c : Char) :
    ∀ acc, digitsToNat (l ++ [c]) acc = digitsToNat l acc * 10 + digitVal c := by
  induction l with
  | nil => intro acc; rfl
  | cons d l ih =>
    intro acc
    simp only [List.cons_append, digitsToNat]
    exact ih _

theorem digitVal_digitChar (n : Nat) (h : n < 10) : digitVal (digitChar n) = n := by
  interval_cases n <;> decide

theorem digitsToNat_natToChars :
    ∀ fuel, ∀ n ≤ fuel, digitsToNat (natToChars (fuel + 1) n) 0 = n := by
  intro fuel
  induction fuel with
  | zero =>
    intro n hn
    interval_cases n
    decide
  | succ fuel ih =>
    intro n hn
    rw [natToChars]
    by_cases h : n < 10
    · simp only [h, if_true, ite_true, digitsToNat, digitVal_digitChar n h]
      omega
    · simp only [h, if_false, ite_false, reduceIte]
      rw [digitsToNat_append, ih (n / 10) (by omega),
        digitVal_digitChar _ (Nat.mod_lt _ (by omega))]
      omega

theorem digit_ne_minus {c : Char} (h : c.isDigit = true) : ¬ c = '-' := by
  intro hc
  rw [hc] at h
  exact absurd h (by decide)

theorem natChars_cons (m : Nat) : ∃ d ds, natChars m = d :: ds := by
  rcases h : natChars m with _ | ⟨d, ds⟩
  · exact absurd h (natToChars_ne_nil m m)
  · exact ⟨d, ds, rfl⟩

theorem parseNumber_natChars (m : Nat) (R : List Char) (hR : headNotDigit R = true) :
    parseNumber (natChars m ++ R) = some (.num (m : Int), R) := by
  obtain ⟨d, ds, hds⟩ := natChars_cons m
  have hdig : ∀ c ∈ natChars m, c.isDigit = true := fun c hc => natToChars_all_digits _ _ c hc
  have hhead : ¬ d = '-' := digit_ne_minus (hdig d (by rw [hds]; simp))
  have htake := takeDigits_append (natChars m) hdig R hR
  have hval : digitsToNat (natChars m) 0 = m := digitsToNat_natToChars m m (le_refl m)
  rw [hds] at htake hval ⊢
  simp only [List.cons_append] at htake ⊢
  rw [parseNumber]
  simp [hhead, htake, hval]

theorem parseNumber_intChars (n : Int) (R : List Char) (hR : headNotDigit R = true) :
    parseNumber (intChars n ++ R) = some (.num n, R) := by
  by_cases hn : n < 0
  · have hd0 : intChars n = '-' :: natChars n.natAbs := by rw [intChars, if_pos hn]
    obtain ⟨d, ds, hds⟩ := natChars_cons n.natAbs
    have hdig : ∀ c ∈ natChars n.natAbs, c.isDigit = true :=
      fun c hc => natToChars_all_digits _ _ c hc
    have htake := takeDigits_append (natChars n.natAbs) hdig R hR
    have hval : digitsToNat (natChars n.natAbs) 0 = n.natAbs :=
      digitsToNat_natToChars _ _ (le_refl _)
    have habs : -((n.natAbs : Int)) = n := by omega
    rw [hd0]
    rw [hds] at htake hval ⊢
    simp only [List.cons_append] at htake ⊢
    rw [parseNumber]
    simp [htake, hval]
    rw [abs_of_nonpos (le_of_lt hn)]
    ring
  · have habs : ((n.natAbs : Int)) = n := by omega
    rw [intChars, if_neg hn, parseNumber_natChars n.natAbs R hR, habs]

/-! ## Sizes (fuel bounds for the parser) -/

mutual
/-- Node count of a JSON value; enough parser fuel for its own text. -/
def Json.size : Json → Nat
  | .null | .bool _ | .num _ | .str _ => 1
  | .arr l => 1 + l.sizeL
  | .obj o => 1 + o.sizeO
def JsonList.sizeL : JsonList → Nat
  | .nil => 0
  | .cons j tl => 1 + j.size + tl.sizeL
def JsonObj.sizeO : JsonObj → Nat
  | .nil => 0
  | .cons _ v tl => 1 + v.size + tl.sizeO
end

theorem JsonList.spineInduction {motive : JsonList → Prop} (nil : motive .nil)
    (cons : ∀ hd tl, motive tl → motive (.cons hd tl)) : ∀ l, motive l
  | .nil => nil
  | .cons hd tl => cons hd tl (JsonList.spineInduction nil cons tl)

theorem JsonObj.entriesInduction {motive : JsonObj → Prop} (nil : motive .nil)
    (cons : ∀ k v tl, motive tl → motive (.cons k v tl)) : ∀ o, motive o
  | .nil => nil
  | .cons k v tl => cons k v tl (JsonObj.entriesInduction nil cons tl)

theorem size_pos (j : Json) : 1 ≤ j.size := by
  cases j <;> simp [Json.size]

theorem size_dump_all (N : Nat) :
    (∀ j : Json, j.size ≤ N → j.size ≤ j.dump.length) ∧
    (∀ l : JsonList, l.sizeL ≤ N → l.sizeL ≤ l.dumpTail.length) ∧
    (∀ o : JsonObj, o.sizeO ≤ N → o.sizeO ≤ o.dumpTail.length) := by
  induction N with
  | zero =>
    refine ⟨fun j hj => ?_, fun l hl => ?_, fun o ho => ?_⟩
    · have := size_pos j
      omega
    · cases l with
      | nil => simp [JsonList.sizeL, JsonList.dumpTail]
      | cons j tl =>
        have := size_pos j
        rw [JsonList.sizeL] at hl
        omega
    · cases o with
      | nil => simp [JsonObj.sizeO, JsonObj.dumpTail]
      | cons k v tl =>
        have := size_pos v
        rw [JsonObj.sizeO] at ho
        omega
  | succ N ih =>
    refine ⟨fun j hj => ?_, fun l hl => ?_, fun o ho => ?_⟩
    · cases j with
      | null => simp [Json.size, Json.dump, nullChars]
      | bool b => cases b <;> simp [Json.size, Json.dump, trueChars, falseChars]
      | num n =>
        obtain ⟨d, ds, hds⟩ := natChars_cons n.natAbs
        rw [Json.size, Json.dump, intChars]
        by_cases hn : n < 0 <;> simp [hn, hds]
      | str s => simp [Json.size, Json.dump, dumpString]
      | arr l =>
        cases l with
        | nil => simp [Json.size, JsonList.sizeL, Json.dump]
        | cons j tl =>
          rw [Json.size, JsonList.sizeL] at hj ⊢
          have h1 := ih.1 j (by omega)
          have h2 := (ih.2.1) tl (by omega)
          simp only [Json.dump, List.length_cons, List.length_append]
          omega
      | obj o =>
        cases o with
        | nil => simp [Json.size, JsonObj.sizeO, Json.dump]
        | cons k v tl =>
          rw [Json.size, JsonObj.sizeO] at hj ⊢
          have h1 := ih.1 v (by omega)
          have h2 := (ih.2.2) tl (by omega)
          simp only [Json.dump, dumpString, List.length_cons, List.length_append]
          omega
    · cases l with
      | nil => simp [JsonList.sizeL]
      | cons j tl =>
        rw [JsonList.sizeL] at hl ⊢
        have h1 := ih.1 j (by omega)
        have h2 := (ih.2.1) tl (by omega)
        simp only [JsonList.dumpTail, List.length_cons, List.length_append]
        omega
    · cases o with
      | nil => simp [JsonObj.sizeO]
      | cons k v tl =>
        rw [JsonObj.sizeO] at ho ⊢
        have h1 := ih.1 v (by omega)
        have h2 := (ih.2.2) tl (by omega)
        simp only [JsonObj.dumpTail, dumpString, List.length_cons, List.length_append]
        omega

theorem size_le_dump (j : Json) : j.size ≤ j.dump.length :=
  (size_dump_all j.size).1 j (le_refl _)

/-! ## Heads of serialized values -/

theorem digit_ne_of {c d : Char} (h : c.isDigit = true) (hd : d.isDigit = false) : ¬ c = d := by
  intro hc
  rw [hc] at h
  rw [h] at hd
  cases hd

theorem digit_not_ws {c : Char} (h : c.isDigit = true) : isWs c = false := by
  by_contra hne
  have hw : isWs c = true := by revert hne; cases isWs c <;> simp
  rw [isWs] at hw
  simp only [Bool.or_eq_true, decide_eq_true_eq] at hw
  rcases hw with ((h1 | h2) | h3) | h4
  · rw [h1] at h; exact absurd h (by decide)
  · have hc : c = Char.ofNat 9 := by rw [← h2, Char.ofNat_toNat]
    rw [hc] at h; exact absurd h (by decide)
  · have hc : c = Char.ofNat 10 := by rw [← h3, Char.ofNat_toNat]
    rw [hc] at h; exact absurd h (by decide)
  · have hc : c = Char.ofNat 13 := by rw [← h4, Char.ofNat_toNat]
    rw [hc] at h; exact absurd h (by decide)

/-- Every serialized value starts with a non-whitespace character other
than `]`, so the parser's bracket dispatch sees the value itself. -/
theorem dump_head (j : Json) :
    ∃ c cs, j.dump = c :: cs ∧ isWs c = false ∧ ¬ c = ']' := by
  cases j with
  | null => exact ⟨'n', _, rfl, by decide, by decide⟩
  | bool b =>
    cases b with
    | false => exact ⟨'f', _, rfl, by decide, by decide⟩
    | true => exact ⟨'t', _, rfl, by decide, by decide⟩
  | num n =>
    rw [Json.dump, intChars]
    by_cases hn : n < 0
    · exact ⟨'-', _, by rw [if_pos hn], by decide, by decide⟩
    · obtain ⟨d, ds, hds⟩ := natChars_cons n.natAbs
      have hmem : d ∈ natChars n.natAbs := by rw [hds]; simp
      have hd : d.isDigit = true := natToChars_all_digits _ _ d hmem
      exact ⟨d, ds, by rw [if_neg hn, hds], digit_not_ws hd, digit_ne_of hd (by decide)⟩
  | str s => exact ⟨'"', _, rfl, by decide, by decide⟩
  | arr l =>
    cases l with
    | nil => exact ⟨'[', _, rfl, by decide, by decide⟩
    | cons j tl => exact ⟨'[', _, rfl, by decide, by decide⟩
  | obj o =>
    cases o with
    | nil => exact ⟨'{', _, rfl, by decide, by decide⟩
    | cons k v tl => exact ⟨'{', _, rfl, by decide, by decide⟩

theorem skipWs_dump (j : Json) (X : List Char) :
    skipWs (j.dump ++ X) = j.dump ++ X := by
  obtain ⟨c, cs, hcs, hws, _⟩ := dump_head j
  rw [hcs, List.cons_append, skipWs_not_ws _ hws]

/-! ## Dict-building lemmas -/

theorem hasKey_insert (o : JsonObj) (k : String) (v : Json) (k' : String) :
    (o.insert k v).hasKey k' = (o.hasKey k' || decide (k = k')) := by
  induction o using JsonObj.entriesInduction with
  | nil =>
    by_cases h : k = k' <;> simp [JsonObj.insert, JsonObj.hasKey, h]
  | cons k'' v'' tl ih =>
    by_cases h1 : k'' = k
    · rw [JsonObj.insert, if_pos h1]
      by_cases h2 : k'' = k'
      · simp [JsonObj.hasKey, h2]
      · have hkk : ¬ k = k' := by rw [← h1]; exact h2
        simp [JsonObj.hasKey, h2, hkk]
    · rw [JsonObj.insert, if_neg h1]
      by_cases h2 : k'' = k'
      · simp [JsonObj.hasKey, h2]
      · simp [JsonObj.hasKey, h2, ih]

theorem insert_fresh (o : JsonObj) (k : String) (v : Json) (h : o.hasKey k = false) :
    o.insert k v = o.appendO (.cons k v .nil) := by
  induction o using JsonObj.entriesInduction with
  | nil => rfl
  | cons k' v' tl ih =>
    rw [JsonObj.hasKey] at h
    by_cases hk : k' = k
    · simp [hk] at h
    · simp only [hk, if_false, ite_false, reduceIte] at h
      rw [JsonObj.insert, if_neg hk, JsonObj.appendO, ih h]

theorem appendO_assoc (a b c : JsonObj) :
    (a.appendO b).appendO c = a.appendO (b.appendO c) := by
  induction a using JsonObj.entriesInduction with
  | nil => rfl
  | cons k v tl ih => rw [JsonObj.appendO, JsonObj.appendO, JsonObj.appendO, ih]

theorem appendO_insert (acc : JsonObj) (k : String) (v : Json) (tl : JsonObj)
    (h : acc.hasKey k = false) :
    (acc.insert k v).appendO tl = acc.appendO (.cons k v tl) := by
  rw [insert_fresh acc k v h, appendO_assoc]
  rfl

/-! ## Parser equations on serialized heads -/

theorem pv_null (f : Nat) (R : List Char) :
    parseValue (f + 1) ('n' :: 'u' :: 'l' :: 'l' :: R) = some (.null, R) := rfl

theorem pv_true (f : Nat) (R : List Char) :
    parseValue (f + 1) ('t' :: 'r' :: 'u' :: 'e' :: R) = some (.bool true, R) := rfl

theorem pv_false (f : Nat) (R : List Char) :
    parseValue (f + 1) ('f' :: 'a' :: 'l' :: 's' :: 'e' :: R) = some (.bool false, R) := rfl

theorem pv_str (f : Nat) (rest : List Char) :
    parseValue (f + 1) ('"' :: rest) =
      (match parseStringBody rest.length rest with
      | some (chars, r) => some (.str (String.mk chars), r)
      | none => none) := rfl

theorem pv_lbrack (f : Nat) (rest : List Char) :
    parseValue (f + 1) ('[' :: rest) =
      (match skipWs rest with
      | [] => none
      | c2 :: r2 =>
        if c2 = ']' then some (.arr .nil, r2)
        else
          match parseElems f (c2 :: r2) with
          | some (l, r3) => some (.arr l, r3)
          | none => none) := rfl

theorem pv_lbrace (f : Nat) (rest : List Char) :
    parseValue (f + 1) ('{' :: rest) =
      (match skipWs rest with
      | [] => none
      | c2 :: r2 =>
        if c2 = '}' then some (.obj .nil, r2)
        else
          match parseMembers f (c2 :: r2) .nil with
          | some (o, r3) => some (.obj o, r3)
          | none => none) := rfl

theorem pv_minus (f : Nat) (rest : List Char) :
    parseValue (f + 1) ('-' :: rest) = parseNumber ('-' :: rest) := rfl

theorem pv_digit (f : Nat) {c : Char} (hd : c.isDigit = true) (rest : List Char) :
    parseValue (f + 1) (c :: rest) = parseNumber (c :: rest) := by
  rw [parseValue, skipWs_not_ws rest (digit_not_ws hd)]
  have h1 : ¬ c = 'n' := digit_ne_of hd (by decide)
  have h2 : ¬ c = 't' := digit_ne_of hd (by decide)
  have h3 : ¬ c = 'f' := digit_ne_of hd (by decide)
  have h4 : ¬ c = '"' := digit_ne_of hd (by decide)
  have h5 : ¬ c = '[' := digit_ne_of hd (by decide)
  have h6 : ¬ c = '{' := digit_ne_of hd (by decide)
  simp [h1, h2, h3, h4, h5, h6, hd]

theorem pv_lbrack_cons (f : Nat) {c : Char} (hbr : ¬ c = ']') (hws : isWs c = false)
    (r2 : List Char) :
    parseValue (f + 1) ('[' :: c :: r2) =
      (match parseElems f (c :: r2) with
      | some (l, r3) => some (.arr l, r3)
      | none => none) := by
  rw [pv_lbrack, skipWs_not_ws _ hws]
  simp [hbr]

theorem pv_lbrace_cons (f : Nat) {c : Char} (hbr : ¬ c = '}') (hws : isWs c = false)
    (r2 : List Char) :
    parseValue (f + 1) ('{' :: c :: r2) =
      (match parseMembers f (c :: r2) .nil with
      | some (o, r3) => some (.obj o, r3)
      | none => none) := by
  rw [pv_lbrace, skipWs_not_ws _ hws]
  simp [hbr]

theorem skipWs_colon (X : List Char) : skipWs (':' :: X) = ':' :: X :=
  skipWs_not_ws X (by decide)

theorem skipWs_comma (X : List Char) : skipWs (',' :: X) = ',' :: X :=
  skipWs_not_ws X (by decide)

theorem skipWs_rbrace (X : List Char) : skipWs ('}' :: X) = '}' :: X :=
  skipWs_not_ws X (by decide)

theorem skipWs_rbrack (X : List Char) : skipWs (']' :: X) = ']' :: X :=
  skipWs_not_ws X (by decide)

theorem roundtrip_all (N : Nat) :
    (∀ j : Json, j.size ≤ N → j.wf = true → ∀ fuel, j.size ≤ fuel → ∀ R, headNotDigit R = true →
       parseValue fuel (j.dump ++ R) = some (j, R)) ∧
    (∀ l : JsonList, l.sizeL ≤ N → l.wfL = true → l ≠ .nil → ∀ fuel, l.sizeL ≤ fuel → ∀ R,
       parseElems fuel (l.dumpElems ++ (']' :: R)) = some (l, R)) ∧
    (∀ o : JsonObj, o.sizeO ≤ N → o.wfO = true → o.nodupKeys = true → o ≠ .nil →
       ∀ acc : JsonObj, (∀ k, o.hasKey k = true → acc.hasKey k = false) →
       ∀ fuel, o.sizeO ≤ fuel → ∀ R,
       parseMembers fuel (o.dumpEntries ++ ('}' :: R)) acc = some (acc.appendO o, R)) := by
  induction N with
  | zero =>
    refine ⟨fun j hj => ?_, fun l hl hwf hne => ?_, fun o ho hwf hnd hne => ?_⟩
    · exact absurd hj (by have := size_pos j; omega)
    · cases l with
      | nil => exact absurd rfl hne
      | cons j tl =>
        rw [JsonList.sizeL] at hl
        exact absurd hl (by have := size_pos j; omega)
    · cases o with
      | nil => exact absurd rfl hne
      | cons k v tl =>
        rw [JsonObj.sizeO] at ho
        exact absurd ho (by have := size_pos v; omega)
  | succ N ih =>
    obtain ⟨ihJ, ihL, ihO⟩ := ih
    refine ⟨fun j hj hwf fuel hfuel R hR => ?_, fun l hl hwf hne fuel hfuel R => ?_,
      fun o ho hwf hnd hne acc hdisj fuel hfuel R => ?_⟩
    · -- parseValue inverts Json.dump
      obtain ⟨f, rfl⟩ : ∃ f, fuel = f + 1 := ⟨fuel - 1, by have := size_pos j; omega⟩
      cases j with
      | null => exact pv_null f R
      | bool b =>
        cases b with
        | true => exact pv_true f R
        | false => exact pv_false f R
      | num n =>
        have hpn := parseNumber_intChars n R hR
        by_cases hn : n < 0
        · rw [Json.dump, intChars, if_pos hn, List.cons_append, pv_minus]
          rw [intChars, if_pos hn, List.cons_append] at hpn
          exact hpn
        · obtain ⟨d, ds, hds⟩ := natChars_cons n.natAbs
          have hmem : d ∈ natChars n.natAbs := by rw [hds]; simp
          have hd : d.isDigit = true := natToChars_all_digits _ _ d hmem
          rw [Json.dump, intChars, if_neg hn, hds, List.cons_append, pv_digit f hd]
          rw [intChars, if_neg hn, hds, List.cons_append] at hpn
          exact hpn
      | str s =>
        rw [Json.dump, dumpString, List.cons_append, pv_str]
        have hr : (escapeList s.data ++ ['"']) ++ R = escapeList s.data ++ ('"' :: R) := by simp
        rw [hr]
        have hlen : s.data.length + 1 ≤ (escapeList s.data ++ ('"' :: R)).length := by
          have := escapeList_length s.data
          simp only [List.length_append, List.length_cons]
          omega
        rw [parseStringBody_escapeList s.data _ hlen R]
      | arr l =>
        cases l with
        | nil => exact rfl
        | cons j tl =>
          rw [Json.size, JsonList.sizeL] at hj hfuel
          rw [Json.wf, JsonList.wfL, Bool.and_eq_true] at hwf
          obtain ⟨hwj, hwtl⟩ := hwf
          obtain ⟨c, cs, hcs, hws, hbr⟩ := dump_head j
          have hX : (Json.arr (.cons j tl)).dump ++ R =
              '[' :: (j.dump ++ (tl.dumpTail ++ (']' :: R))) := by
            rw [Json.dump]
            simp
          rw [hX, hcs, List.cons_append, pv_lbrack_cons f hbr hws]
          rw [← List.cons_append, ← hcs]
          have hElems : j.dump ++ (tl.dumpTail ++ (']' :: R)) =
              (JsonList.cons j tl).dumpElems ++ (']' :: R) := by
            rw [JsonList.dumpElems]
            simp
          rw [hElems, ihL (JsonList.cons j tl) (by rw [JsonList.sizeL]; omega)
            (by rw [JsonList.wfL, Bool.and_eq_true]; exact ⟨hwj, hwtl⟩)
            (by intro h; exact JsonList.noConfusion h) f
            (by rw [JsonList.sizeL]; omega) R]
      | obj o =>
        cases o with
        | nil => exact rfl
        | cons k v tl =>
          rw [Json.size, JsonObj.sizeO] at hj hfuel
          rw [Json.wf, Bool.and_eq_true] at hwf
          obtain ⟨hnd, hwo⟩ := hwf
          have hX : (Json.obj (.cons k v tl)).dump ++ R =
              '{' :: ((JsonObj.cons k v tl).dumpEntries ++ ('}' :: R)) := by
            rw [Json.dump, JsonObj.dumpEntries]
            simp
          have hEhead : (JsonObj.cons k v tl).dumpEntries ++ ('}' :: R) =
              '"' :: ((escapeList k.data ++ ['"']) ++
                ((':' :: ' ' :: v.dump) ++ (tl.dumpTail ++ ('}' :: R)))) := by
            rw [JsonObj.dumpEntries, dumpString]
            simp
          rw [hX, hEhead, pv_lbrace_cons f (by decide) (by decide)]
          rw [← hEhead]
          rw [ihO (JsonObj.cons k v tl) (by rw [JsonObj.sizeO]; omega)
            (by rw [JsonObj.wfO]; exact hwo) hnd
            (by intro h; exact JsonObj.noConfusion h)
            JsonObj.nil (fun k _ => rfl) f (by rw [JsonObj.sizeO]; omega) R]
          rfl
    · -- parseElems inverts dumpElems
      cases l with
      | nil => exact absurd rfl hne
      | cons j tl =>
        obtain ⟨f, rfl⟩ : ∃ f, fuel = f + 1 :=
          ⟨fuel - 1, by rw [JsonList.sizeL] at hfuel; have := size_pos j; omega⟩
        rw [JsonList.sizeL] at hl hfuel
        rw [JsonList.wfL, Bool.and_eq_true] at hwf
        obtain ⟨hwj, hwtl⟩ := hwf
        rw [parseElems]
        have hE : (JsonList.cons j tl).dumpElems ++ (']' :: R) =
            j.dump ++ (tl.dumpTail ++ (']' :: R)) := by
          rw [JsonList.dumpElems]
          simp
        rw [hE]
        have hnd2 : headNotDigit (tl.dumpTail ++ (']' :: R)) = true := by
          cases tl with
          | nil => rw [JsonList.dumpTail]; rfl
          | cons j2 tl2 => rw [JsonList.dumpTail]; rfl
        have hv := ihJ j (by omega) hwj f (by omega) _ hnd2
        cases tl with
        | nil =>
          rw [hv, JsonList.dumpTail, List.nil_append]
          rfl
        | cons j2 tl2 =>
          have hrec : parseElems f (j2.dump ++ (tl2.dumpTail ++ (']' :: R))) =
              some (.cons j2 tl2, R) := by
            have h := ihL (JsonList.cons j2 tl2)
              (by rw [JsonList.sizeL] at hl ⊢; omega) hwtl
              (by intro h; exact JsonList.noConfusion h) f
              (by rw [JsonList.sizeL] at hfuel ⊢; omega) R
            rw [JsonList.dumpElems] at h
            simp only [List.cons_append, List.append_assoc] at h
            exact h
          simp only [JsonList.dumpTail, List.cons_append, List.append_assoc] at hv ⊢
          simp only [hv, skipWs_comma, parseElems_skip_space, hrec]

    · -- parseMembers inverts dumpEntries
      cases o with
      | nil => exact absurd rfl hne
      | cons k v tl =>
        obtain ⟨f, rfl⟩ : ∃ f, fuel = f + 1 :=
          ⟨fuel - 1, by rw [JsonObj.sizeO] at hfuel; have := size_pos v; omega⟩
        rw [JsonObj.sizeO] at ho hfuel
        rw [JsonObj.wfO, Bool.and_eq_true] at hwf
        obtain ⟨hwv, hwtl⟩ := hwf
        rw [JsonObj.nodupKeys, Bool.and_eq_true, Bool.not_eq_true'] at hnd
        obtain ⟨hkfresh, hndtl⟩ := hnd
        have hacck : acc.hasKey k = false := hdisj k (by rw [JsonObj.hasKey]; simp)
        rw [parseMembers]
        have hE : (JsonObj.cons k v tl).dumpEntries ++ ('}' :: R) =
            '"' :: (escapeList k.data ++ ('"' ::
              (':' :: ' ' :: (v.dump ++ (tl.dumpTail ++ ('}' :: R)))))) := by
          rw [JsonObj.dumpEntries, dumpString]
          simp
        rw [hE, skipWs_not_ws _ (by decide)]
        have hlen : k.data.length + 1 ≤ (escapeList k.data ++ ('"' ::
            (':' :: ' ' :: (v.dump ++ (tl.dumpTail ++ ('}' :: R)))))).length := by
          have := escapeList_length k.data
          simp only [List.length_append, List.length_cons]
          omega
        have hstr := parseStringBody_escapeList k.data _ hlen
          (':' :: ' ' :: (v.dump ++ (tl.dumpTail ++ ('}' :: R))))
        have hnd3 : headNotDigit (tl.dumpTail ++ ('}' :: R)) = true := by
          cases tl with
          | nil => rw [JsonObj.dumpTail]; rfl
          | cons k2 v2 tl2 => rw [JsonObj.dumpTail]; rfl
        have hval : parseValue f (' ' :: (v.dump ++ (tl.dumpTail ++ ('}' :: R)))) =
            some (v, tl.dumpTail ++ ('}' :: R)) := by
          rw [parseValue_skip_space]
          exact ihJ v (by omega) hwv f (by omega) _ hnd3
        have hmk : String.mk k.data = k := rfl
        cases tl with
        | nil =>
          simp only [JsonObj.dumpTail, List.nil_append] at hstr hval ⊢
          simp only [hstr, skipWs_colon, hval, skipWs_rbrace, hmk,
            insert_fresh acc k v hacck]
        | cons k2 v2 tl2 =>
          have hdisj2 : ∀ k', (JsonObj.cons k2 v2 tl2).hasKey k' = true →
              (acc.insert k v).hasKey k' = false := by
            intro k' hk'
            rw [hasKey_insert]
            have h1 : acc.hasKey k' = false := by
              apply hdisj k'
              rw [JsonObj.hasKey]
              by_cases he : k = k'
              · simp [he]
              · simp [he, hk']
            have h2 : ¬ k = k' := by
              intro he
              rw [he] at hkfresh
              rw [hkfresh] at hk'
              cases hk'
            simp [h1, h2]
          have hrec : parseMembers f
              (dumpString k2 ++ (':' :: ' ' :: (v2.dump ++ (tl2.dumpTail ++ ('}' :: R)))))
              (acc.insert k v) = some ((acc.insert k v).appendO (.cons k2 v2 tl2), R) := by
            have h := ihO (JsonObj.cons k2 v2 tl2)
              (by rw [JsonObj.sizeO] at ho ⊢; omega) hwtl hndtl
              (by intro h; exact JsonObj.noConfusion h) (acc.insert k v) hdisj2 f
              (by rw [JsonObj.sizeO] at hfuel ⊢; omega) R
            rw [JsonObj.dumpEntries] at h
            simp only [List.cons_append, List.append_assoc] at h
            exact h
          simp only [JsonObj.dumpTail, List.cons_append, List.append_assoc] at hstr hval ⊢
          simp only [hstr, skipWs_colon, hval, skipWs_comma, parseMembers_skip_space, hmk,
            hrec, appendO_insert acc k v _ hacck]

/-- `parseValue` inverts `Json.dump` on well-formed values, given enough
fuel and a continuation that does not extend a trailing number. -/
theorem parseValue_dump (j : Json) (hwf : j.wf = true) (fuel : Nat) (hfuel : j.size ≤ fuel)
    (R : List Char) (hR : headNotDigit R = true) :
    parseValue fuel (j.dump ++ R) = some (j, R) :=
  (roundtrip_all j.size).1 j (le_refl _) hwf fuel hfuel R hR

/-- `json.loads` inverts `json.dumps` on well-formed values. -/
theorem json_loads_dumps (j : Json) (hwf : j.wf = true) :
    json_loads (json_dumps j) = .ok j := by
  rw [json_loads]
  have hdata : (json_dumps j).data = j.dump := rfl
  rw [hdata]
  have hv := parseValue_dump j hwf (j.dump.length + 1)
    (by have := size_le_dump j; omega) [] rfl
  rw [List.append_nil] at hv
  rw [hv]
  rfl

/-! ## Round trip at the message level -/

theorem parse_format_record (stream record version : Json) (hs : stream.wf = true)
    (hr : record.wf = true) (hv : version.wf = true) :
    parse_message (format_message (.RecordMessage stream record version)) =
      .ok (some (.RecordMessage stream record version)) := by
  by_cases hv0 : version = Json.null
  · subst hv0
    have hwf : (Message.asdict (.RecordMessage stream record .null)).wf = true := by
      simp [Message.asdict, Json.wf, JsonObj.nodupKeys, JsonObj.hasKey, JsonObj.wfO, hs, hr]
    have hld := json_loads_dumps _ hwf
    rw [parse_message, format_message, hld]
    rfl
  · have ha : Message.asdict (.RecordMessage stream record version) =
        Json.obj (.cons "type" (.str "RECORD") (.cons "stream" stream (.cons "record" record
          (.cons "version" version .nil)))) := by
      rw [Message.asdict, if_neg hv0]
    have hwf : (Message.asdict (.RecordMessage stream record version)).wf = true := by
      rw [ha]
      simp [Json.wf, JsonObj.nodupKeys, JsonObj.hasKey, JsonObj.wfO, hs, hr, hv]
    have hld := json_loads_dumps _ hwf
    rw [ha] at hld
    rw [parse_message, format_message, ha, hld]
    rfl

theorem parse_format_schema (stream schema key_properties : Json) (hs : stream.wf = true)
    (hsc : schema.wf = true) (hk : key_properties.wf = true) :
    parse_message (format_message (.SchemaMessage stream schema key_properties)) =
      .ok (some (.SchemaMessage stream schema key_properties)) := by
  have hwf : (Message.asdict (.SchemaMessage stream schema key_properties)).wf = true := by
    simp [Message.asdict, Json.wf, JsonObj.nodupKeys, JsonObj.hasKey, JsonObj.wfO, hs, hsc, hk]
  have hld := json_loads_dumps _ hwf
  rw [parse_message, format_message, hld]
  rfl

theorem parse_format_state (value : Json) (hv : value.wf = true) :
    parse_message (format_message (.StateMessage value)) =
      .ok (some (.StateMessage value)) := by
  have hwf : (Message.asdict (.StateMessage value)).wf = true := by
    simp [Message.asdict, Json.wf, JsonObj.nodupKeys, JsonObj.hasKey, JsonObj.wfO, hv]
  have hld := json_loads_dumps _ hwf
  rw [parse_message, format_message, hld]
  rfl

theorem parse_format_activate (stream version : Json) (hs : stream.wf = true)
    (hv : version.wf = true) :
    parse_message (format_message (.ActivateVersionMessage stream version)) = .ok none := by
  have hwf : (Message.asdict (.ActivateVersionMessage stream version)).wf = true := by
    simp [Message.asdict, Json.wf, JsonObj.nodupKeys, JsonObj.hasKey, JsonObj.wfO, hs, hv]
  have hld := json_loads_dumps _ hwf
  rw [parse_message, format_message, hld]
  rfl

/-! ## Serialized text never contains a newline -/

set_option maxHeartbeats 1000000 in
theorem escapeChar_no_newline (c : Char) : '\n' ∉ escapeChar c := by
  have hx : ∀ x : Nat, ¬ ('\n' = hexDig (x % 16)) := by
    intro x
    have h16 : x % 16 < 16 := Nat.mod_lt _ (by omega)
    have hall : ∀ d < 16, ¬ ('\n' = hexDig d) := by decide
    exact hall _ h16
  rw [escapeChar]
  split_ifs with h1 h2 h3 h4 h5 h6 h7 h8 h9 h10
  all_goals first
  | (simp only [List.mem_singleton]
     intro he
     rw [← he] at h3
     exact h3 (by decide))
  | simp [hex4, hx]

theorem escapeList_no_newline (s : List Char) : '\n' ∉ escapeList s := by
  induction s with
  | nil => simp [escapeList]
  | cons c s ih =>
    rw [escapeList]
    simp only [List.mem_append]
    intro h
    rcases h with h | h
    · exact escapeChar_no_newline c h
    · exact ih h

theorem natToChars_no_newline (fuel n : Nat) : '\n' ∉ natToChars fuel n := by
  intro h
  have := natToChars_all_digits fuel n _ h
  exact absurd this (by decide)

theorem dumpString_no_newline (s : String) : '\n' ∉ dumpString s := by
  rw [dumpString]
  simp only [List.mem_cons, List.mem_append, List.mem_singleton]
  intro h
  rcases h with h | h | h
  · exact absurd h (by decide)
  · exact escapeList_no_newline _ h
  · exact absurd h (by decide)

theorem intChars_no_newline (n : Int) : '\n' ∉ intChars n := by
  rw [intChars]
  by_cases hn : n < 0
  · simp only [hn, if_true, ite_true, List.mem_cons]
    intro h
    rcases h with h | h
    · exact absurd h (by decide)
    · exact natToChars_no_newline _ _ h
  · simp only [hn, if_false, ite_false, reduceIte]
    exact natToChars_no_newline _ _

theorem dump_no_newline_all (N : Nat) :
    (∀ j : Json, j.size ≤ N → '\n' ∉ j.dump) ∧
    (∀ l : JsonList, l.sizeL ≤ N → '\n' ∉ l.dumpTail) ∧
    (∀ o : JsonObj, o.sizeO ≤ N → '\n' ∉ o.dumpTail) := by
  induction N with
  | zero =>
    refine ⟨fun j hj => absurd hj (by have := size_pos j; omega), fun l hl => ?_, fun o ho => ?_⟩
    · cases l with
      | nil => simp [JsonList.dumpTail]
      | cons j tl =>
        rw [JsonList.sizeL] at hl
        exact absurd hl (by have := size_pos j; omega)
    · cases o with
      | nil => simp [JsonObj.dumpTail]
      | cons k v tl =>
        rw [JsonObj.sizeO] at ho
        exact absurd ho (by have := size_pos v; omega)
  | succ N ih =>
    obtain ⟨ihJ, ihL, ihO⟩ := ih
    refine ⟨fun j hj => ?_, fun l hl => ?_, fun o ho => ?_⟩
    · cases j with
      | null => decide
      | bool b => cases b <;> decide
      | num n => exact intChars_no_newline n
      | str s => exact dumpString_no_newline s
      | arr l =>
        cases l with
        | nil => decide
        | cons j tl =>
          rw [Json.size, JsonList.sizeL] at hj
          rw [Json.dump]
          simp only [List.mem_cons, List.mem_append, List.mem_singleton]
          intro h
          rcases h with h | (h | h) | h
          · exact absurd h (by decide)
          · exact ihJ j (by omega) h
          · exact ihL tl (by omega) h
          · exact absurd h (by decide)
      | obj o =>
        cases o with
        | nil => decide
        | cons k v tl =>
          rw [Json.size, JsonObj.sizeO] at hj
          rw [Json.dump]
          simp only [List.mem_cons, List.mem_append, List.mem_singleton]
          intro h
          rcases h with h | ((h | h | h | h) | h) | h
          · exact absurd h (by decide)
          · exact dumpString_no_newline k h
          · exact absurd h (by decide)
          · exact absurd h (by decide)
          · exact ihJ v (by omega) h
          · exact ihO tl (by omega) h
          · exact absurd h (by decide)
    · cases l with
      | nil => simp [JsonList.dumpTail]
      | cons j tl =>
        rw [JsonList.sizeL] at hl
        rw [JsonList.dumpTail]
        simp only [List.mem_cons, List.mem_append]
        intro h
        rcases h with h | h | h | h
        · exact absurd h (by decide)
        · exact absurd h (by decide)
        · exact ihJ j (by omega) h
        · exact ihL tl (by omega) h
    · cases o with
      | nil => simp [JsonObj.dumpTail]
      | cons k v tl =>
        rw [JsonObj.sizeO] at ho
        rw [JsonObj.dumpTail]
        simp only [List.mem_cons, List.mem_append]
        intro h
        rcases h with h | h | (h | h | h | h) | h
        · exact absurd h (by decide)
        · exact absurd h (by decide)
        · exact dumpString_no_newline k h
        · exact absurd h (by decide)
        · exact absurd h (by decide)
        · exact ihJ v (by omega) h
        · exact ihO tl (by omega) h

theorem dump_no_newline (j : Json) : '\n' ∉ j.dump :=
  (dump_no_newline_all j.size).1 j (le_refl _)

/-- No line produced by the serializer embeds a newline character. -/
theorem format_message_no_newline (m : Message) : '\n' ∉ (format_message m).data :=
  dump_no_newline m.asdict

/-! ## Lookups through the canonical form -/

/-- Top-level key lookup of a JSON object value. -/
def Json.objLookup : Json → String → Option Json
  | .obj o, k => o.lookup k
  | _, _ => none

theorem hasKey_insertSorted (o : JsonObj) (k : String) (v : Json) (k' : String) :
    (o.insertSorted k v).hasKey k' = (decide (k = k') || o.hasKey k') := by
  induction o using JsonObj.entriesInduction with
  | nil => by_cases h : k = k' <;> simp [JsonObj.insertSorted, JsonObj.hasKey, h]
  | cons k'' v'' tl ih =>
    rw [JsonObj.insertSorted]
    by_cases hle : keyLe k k''
    · simp only [hle, if_true, ite_true]
      by_cases h : k = k' <;> simp [JsonObj.hasKey, h]
    · simp only [hle, if_false, ite_false, reduceIte]
      by_cases h2 : k'' = k'
      · simp [JsonObj.hasKey, h2]
      · simp [JsonObj.hasKey, h2, ih]

theorem lookup_insertSorted_self (o : JsonObj) (k : String) (v : Json)
    (h : o.hasKey k = false) : (o.insertSorted k v).lookup k = some v := by
  induction o using JsonObj.entriesInduction with
  | nil => simp [JsonObj.insertSorted, JsonObj.lookup]
  | cons k' v' tl ih =>
    rw [JsonObj.hasKey] at h
    by_cases hk : k' = k
    · simp [hk] at h
    · simp only [hk, if_false, ite_false, reduceIte] at h
      rw [JsonObj.insertSorted]
      by_cases hle : keyLe k k'
      · simp [hle, JsonObj.lookup]
      · simp [hle, JsonObj.lookup, hk, ih h]

theorem lookup_insertSorted_other (o : JsonObj) (k : String) (v : Json) (k' : String)
    (h : ¬ k = k') : (o.insertSorted k v).lookup k' = o.lookup k' := by
  induction o using JsonObj.entriesInduction with
  | nil => simp [JsonObj.insertSorted, JsonObj.lookup, h]
  | cons k'' v'' tl ih =>
    rw [JsonObj.insertSorted]
    by_cases hle : keyLe k k''
    · simp [hle, JsonObj.lookup, h]
    · by_cases h2 : k'' = k'
      · subst h2
        simp [hle, JsonObj.lookup]
      · simp [hle, JsonObj.lookup, h2, ih]

theorem hasKey_sortEntries (o : JsonObj) (k : String) :
    o.sortEntries.hasKey k = o.hasKey k := by
  induction o using JsonObj.entriesInduction with
  | nil => rfl
  | cons k' v tl ih =>
    rw [JsonObj.sortEntries, hasKey_insertSorted, ih, JsonObj.hasKey]
    by_cases h : k' = k <;> simp [h]

theorem lookup_sortEntries (o : JsonObj) (h : o.nodupKeys = true) (k : String) :
    o.sortEntries.lookup k = o.lookup k := by
  induction o using JsonObj.entriesInduction with
  | nil => rfl
  | cons k' v tl ih =>
    rw [JsonObj.nodupKeys, Bool.and_eq_true, Bool.not_eq_true'] at h
    obtain ⟨hfresh, hnd⟩ := h
    rw [JsonObj.sortEntries]
    by_cases hk : k' = k
    · subst hk
      rw [lookup_insertSorted_self _ _ _ (by rw [hasKey_sortEntries]; exact hfresh)]
      simp [JsonObj.lookup]
    · rw [lookup_insertSorted_other _ _ _ _ hk, ih hnd]
      simp [JsonObj.lookup, hk]

theorem lookup_normO (o : JsonObj) (k : String) :
    o.normO.lookup k = (o.lookup k).map Json.norm := by
  induction o using JsonObj.entriesInduction with
  | nil => rfl
  | cons k' v tl ih =>
    rw [JsonObj.normO, JsonObj.lookup, JsonObj.lookup]
    by_cases h : k' = k <;> simp [h, ih]

theorem hasKey_normO (o : JsonObj) (k : String) : o.normO.hasKey k = o.hasKey k := by
  induction o using JsonObj.entriesInduction with
  | nil => rfl
  | cons k' v tl ih =>
    rw [JsonObj.normO, JsonObj.hasKey, JsonObj.hasKey]
    by_cases h : k' = k <;> simp [h, ih]

theorem nodup_normO (o : JsonObj) : o.normO.nodupKeys = o.nodupKeys := by
  induction o using JsonObj.entriesInduction with
  | nil => rfl
  | cons k' v tl ih =>
    rw [JsonObj.normO, JsonObj.nodupKeys, JsonObj.nodupKeys, hasKey_normO, ih]

/-- Looking a key up in the canonical form of an object returns the
canonical form of the value stored under that key. -/
theorem norm_objLookup (o : JsonObj) (h : o.nodupKeys = true) (k : String) :
    (Json.norm (.obj o)).objLookup k = (o.lookup k).map Json.norm := by
  rw [Json.norm, Json.objLookup, lookup_sortEntries _ (by rw [nodup_normO]; exact h),
    lookup_normO]

/-! ## Helpers for the claim theorems -/

theorem except_ok_bind {ε α β : Type} (a : α) (f : α → Except ε β) :
    (Except.ok a >>= f) = f a := rfl

theorem except_error_bind {ε α β : Type} (e : ε) (f : α → Except ε β) :
    ((Except.error e : Except ε α) >>= f) = .error e := rfl

theorem lookup_hasKey (o : JsonObj) (k : String) {v : Json} (h : o.lookup k = some v) :
    o.hasKey k = true := by
  induction o using JsonObj.entriesInduction with
  | nil => exact absurd h (by simp [JsonObj.lookup])
  | cons k' v' tl ih =>
    rw [JsonObj.lookup] at h
    rw [JsonObj.hasKey]
    by_cases hk : k' = k
    · simp [hk]
    · simp only [hk, if_false, ite_false, reduceIte] at h ⊢
      exact ih h

/-- Any `RECORD`-tagged object missing `stream` is rejected with the
missing-key error for `stream`, whatever else it contains. -/
theorem parse_record_missing_stream (o : JsonObj) (hnd : o.nodupKeys = true)
    (hwf : o.wfO = true) (htype : o.lookup "type" = some (.str "RECORD"))
    (hstream : o.hasKey "stream" = false) :
    parse_message (json_dumps (.obj o)) = .error (.missingKey "stream") := by
  have hld := json_loads_dumps (.obj o) (by rw [Json.wf, hnd, hwf]; rfl)
  have hkt : o.hasKey "type" = true := lookup_hasKey o "type" htype
  rw [parse_message, hld, except_ok_bind]
  simp only [required_key, pyContains, pyGetItem, hkt, htype, hstream, except_ok_bind,
    except_error_bind, if_true, ite_true, if_false, ite_false, pyEqStr, reduceIte]
  rfl

/-- Any `SCHEMA`-tagged object with `stream` present but `schema` missing is
rejected with the missing-key error for `schema`: the checks run in the
order `stream`, `schema`, `key_properties`. -/
theorem parse_schema_missing_schema (o : JsonObj) (hnd : o.nodupKeys = true)
    (hwf : o.wfO = true) (htype : o.lookup "type" = some (.str "SCHEMA"))
    {sv : Json} (hstream : o.lookup "stream" = some sv)
    (hschema : o.hasKey "schema" = false) :
    parse_message (json_dumps (.obj o)) = .error (.missingKey "schema") := by
  have hld := json_loads_dumps (.obj o) (by rw [Json.wf, hnd, hwf]; rfl)
  have hkt : o.hasKey "type" = true := lookup_hasKey o "type" htype
  have hks : o.hasKey "stream" = true := lookup_hasKey o "stream" hstream
  rw [parse_message, hld, except_ok_bind]
  simp only [required_key, pyContains, pyGetItem, hkt, htype, hks, hstream, hschema,
    except_ok_bind, except_error_bind, if_true, ite_true, if_false, ite_false, pyEqStr,
    reduceIte]
  rfl

/-- A `RECORD` wire object carrying `"version": null` parses to a record
whose version is `None`, exactly as if the key were absent. -/
theorem parse_null_version (stream record : Json) (hs : stream.wf = true)
    (hr : record.wf = true) :
    parse_message (json_dumps (jobj [("type", .str "RECORD"), ("stream", stream),
      ("record", record), ("version", .null)])) =
      .ok (some (.RecordMessage stream record .null)) := by
  have hwf : (jobj [("type", .str "RECORD"), ("stream", stream), ("record", record),
      ("version", .null)]).wf = true := by
    simp [jobj, jEntries, Json.wf, JsonObj.nodupKeys, JsonObj.hasKey, JsonObj.wfO, hs, hr]
  have hld := json_loads_dumps _ hwf
  rw [parse_message, hld]
  rfl

/-- The canonical form of a record's mapping, observed through top-level key
lookups. -/
theorem record_norm_lookup (stream record version : Json) :
    (Json.norm (Message.asdict (.RecordMessage stream record version))).objLookup "stream" =
      some stream.norm ∧
    (Json.norm (Message.asdict (.RecordMessage stream record version))).objLookup "record" =
      some record.norm ∧
    (Json.norm (Message.asdict (.RecordMessage stream record version))).objLookup "version" =
      (if version = Json.null then none else some version.norm) := by
  by_cases h : version = Json.null
  · rw [Message.asdict, if_pos h]
    refine ⟨?_, ?_, ?_⟩ <;>
      rw [norm_objLookup _ (by simp [JsonObj.nodupKeys, JsonObj.hasKey])] <;>
      simp [JsonObj.lookup, h]
  · rw [Message.asdict, if_neg h]
    refine ⟨?_, ?_, ?_⟩ <;>
      rw [norm_objLookup _ (by simp [JsonObj.nodupKeys, JsonObj.hasKey])] <;>
      simp [JsonObj.lookup, h]

/-! ## The claims -/

/-- Claim C1, counterexample: the round trip fails for the ActivateVersion
variant.  Its serialized form parses back to `None`, not to an equal
message, because `parse_message` has no `ACTIVATE_VERSION` branch. -/
theorem C1_counterexample :
    parse_message (format_message (Message.ActivateVersionMessage (.str "users") (.num 2))) =
      .ok none ∧
    parse_message (format_message (Message.ActivateVersionMessage (.str "users") (.num 2))) ≠
      .ok (some (Message.ActivateVersionMessage (.str "users") (.num 2))) := by
  constructor
  · decide
  · decide

/-- Claim C1, amended: `Parse(Serialize(m)) == m` holds for every valid
Record, Schema and State message (any well-formed field values, with the
parsed message equal field for field); for ActivateVersion, serialization
succeeds but parsing the result yields no message. -/
theorem C1_roundtrip :
    (∀ stream record version : Json, stream.wf = true → record.wf = true →
      version.wf = true →
      parse_message (format_message (.RecordMessage stream record version)) =
        .ok (some (.RecordMessage stream record version))) ∧
    (∀ stream schema key_properties : Json, stream.wf = true → schema.wf = true →
      key_properties.wf = true →
      parse_message (format_message (.SchemaMessage stream schema key_properties)) =
        .ok (some (.SchemaMessage stream schema key_properties))) ∧
    (∀ value : Json, value.wf = true →
      parse_message (format_message (.StateMessage value)) =
        .ok (some (.StateMessage value))) ∧
    (∀ stream version : Json, stream.wf = true → version.wf = true →
      parse_message (format_message (.ActivateVersionMessage stream version)) = .ok none) :=
  ⟨parse_format_record, parse_format_schema, parse_format_state, parse_format_activate⟩

/-- Claim C1, witness: a concrete round trip for each surviving variant. -/
theorem C1_roundtrip_witness :
    parse_message (format_message (Message.RecordMessage (.str "users")
        (jobj [("id", .num 1), ("name", .str "Mary")]) (.num 3))) =
      .ok (some (Message.RecordMessage (.str "users")
        (jobj [("id", .num 1), ("name", .str "Mary")]) (.num 3))) ∧
    parse_message (format_message (Message.SchemaMessage (.str "users")
        (jobj [("type", .str "object")]) (jarr [.str "id"]))) =
      .ok (some (Message.SchemaMessage (.str "users")
        (jobj [("type", .str "object")]) (jarr [.str "id"]))) ∧
    parse_message (format_message (Message.StateMessage (jobj [("users", .str "x")]))) =
      .ok (some (Message.StateMessage (jobj [("users", .str "x")]))) :=
  ⟨C1_roundtrip.1 _ _ _ (by decide) (by decide) (by decide),
   C1_roundtrip.2.1 _ _ _ (by decide) (by decide) (by decide),
   C1_roundtrip.2.2.1 _ (by decide)⟩

/-- Claim C2, counterexample: `SchemaMessage.__init__` performs no
validation.  Constructing a Schema message with `key_properties=42`
succeeds and produces a full canonical mapping containing `42`; the
validation error is raised only by `write_schema`, before writing. -/
theorem C2_counterexample :
    Message.asdict (Message.SchemaMessage (.str "s") (.obj .nil) (.num 42)) =
      jobj [("type", .str "SCHEMA"), ("stream", .str "s"), ("schema", .obj .nil),
        ("key_properties", .num 42)] ∧
    write_schema (.str "s") (.obj .nil) (.num 42) = .error .keyPropertiesError := by
  constructor
  · rfl
  · rfl

/-- Claim C2, amended: the shape check lives in `write_schema`, not in the
constructor.  `write_schema` accepts a string (coercing it) or a list and
writes the message; any other shape raises the key-properties error before
any wire interaction; the constructor itself stores whatever it is given. -/
theorem C2_write_schema :
    (∀ stream schema : Json, ∀ s : String, write_schema stream schema (.str s) =
      .ok (write_message (.SchemaMessage stream schema (jarr [.str s])))) ∧
    (∀ stream schema : Json, ∀ l : JsonList, write_schema stream schema (.arr l) =
      .ok (write_message (.SchemaMessage stream schema (.arr l)))) ∧
    (∀ stream schema kp : Json, (∀ s, kp ≠ .str s) → (∀ l, kp ≠ .arr l) →
      write_schema stream schema kp = .error .keyPropertiesError) ∧
    (∀ stream schema kp : Json, Message.asdict (.SchemaMessage stream schema kp) =
      .obj (.cons "type" (.str "SCHEMA") (.cons "stream" stream (.cons "schema" schema
        (.cons "key_properties" kp .nil))))) := by
  refine ⟨fun _ _ _ => rfl, fun _ _ _ => rfl, fun stream schema kp h1 h2 => ?_,
    fun _ _ _ => rfl⟩
  cases kp with
  | null => rfl
  | bool b => rfl
  | num n => rfl
  | str s => exact absurd rfl (h1 s)
  | arr l => exact absurd rfl (h2 l)
  | obj o => rfl

/-- Claim C2, witness: the amended validation at `key_properties = 42`. -/
theorem C2_write_schema_witness :
    write_schema (.str "s") (.obj .nil) (.num 42) = .error .keyPropertiesError :=
  C2_write_schema.2.2.1 (.str "s") (.obj .nil) (.num 42)
    (fun _ h => Json.noConfusion h) (fun _ h => Json.noConfusion h)

/-- Claim C3, counterexample: the constructor does not coerce.
`SchemaMessage(..., key_properties="id")` keeps the bare string, so its
canonical mapping differs from the one built with `["id"]`, and the two
messages are not equal. -/
theorem C3_counterexample :
    Message.asdict (Message.SchemaMessage (.str "s") (.obj .nil) (.str "id")) ≠
      Message.asdict (Message.SchemaMessage (.str "s") (.obj .nil) (jarr [.str "id"])) ∧
    ¬ Message.eq (Message.SchemaMessage (.str "s") (.obj .nil) (.str "id"))
      (Message.SchemaMessage (.str "s") (.obj .nil) (jarr [.str "id"])) := by
  constructor
  · decide
  · decide

/-- Claim C3, amended: the string-to-singleton-list coercion happens in
`write_schema`: writing with `key_properties="id"` produces exactly the
same line as writing with `key_properties=["id"]`. -/
theorem C3_write_schema_coerce :
    ∀ stream schema : Json, ∀ s : String,
      write_schema stream schema (.str s) = write_schema stream schema (jarr [.str s]) :=
  fun _ _ _ => rfl

/-- Claim C4, counterexample: `Parse("[]")` does fail, but not with the
JSON-decode (MalformedInput) error: the list decodes fine and then fails
the required-key check for `type`, so the error is the missing-key one. -/
theorem C4_counterexample :
    parse_message "[]" = .error (.missingKey "type") ∧
    parse_message "[]" ≠ .error .jsonDecodeError := by
  constructor
  · decide
  · decide

/-- Claim C4, amended: input that is not valid JSON fails with the decode
error (MalformedInput), and that error propagates unchanged out of
`parse_message`; input that is valid JSON but not an object also fails,
but with the missing-required-key error for `type` (for `"[]"`), not with
MalformedInput. -/
theorem C4_malformed :
    (∀ s : String, json_loads s = .error .jsonDecodeError →
      parse_message s = .error .jsonDecodeError) ∧
    parse_message "not json" = .error .jsonDecodeError ∧
    parse_message "[]" = .error (.missingKey "type") := by
  refine ⟨fun s h => ?_, by decide, by decide⟩
  rw [parse_message, h]
  rfl

/-- Claim C4, witness: the propagation applied to a concrete bad input. -/
theorem C4_malformed_witness :
    parse_message "not json" = .error .jsonDecodeError :=
  C4_malformed.1 "not json" (by decide)

/-- Claim C5: missing required fields are reported by name, checked in the
order `stream` then `record` for RECORD and `stream`, `schema`,
`key_properties` for SCHEMA; a missing `type` is reported first.  The two
general conjuncts show the order for arbitrary objects; the rest are the
claim's concrete instances. -/
theorem C5_missing_fields :
    (∀ o : JsonObj, o.nodupKeys = true → o.wfO = true →
      o.lookup "type" = some (.str "RECORD") → o.hasKey "stream" = false →
      parse_message (json_dumps (.obj o)) = .error (.missingKey "stream")) ∧
    (∀ o : JsonObj, o.nodupKeys = true → o.wfO = true →
      o.lookup "type" = some (.str "SCHEMA") → ∀ sv : Json,
      o.lookup "stream" = some sv → o.hasKey "schema" = false →
      parse_message (json_dumps (.obj o)) = .error (.missingKey "schema")) ∧
    parse_message "\x7b\"type\":\"RECORD\",\"record\":\x7b\x7d\x7d" = .error (.missingKey "stream") ∧
    parse_message "\x7b\"type\":\"RECORD\",\"stream\":\"s\"\x7d" = .error (.missingKey "record") ∧
    parse_message "\x7b\"type\":\"SCHEMA\",\"stream\":\"s\"\x7d" = .error (.missingKey "schema") ∧
    parse_message "\x7b\"type\":\"SCHEMA\"\x7d" = .error (.missingKey "stream") ∧
    parse_message "\x7b\"type\":\"SCHEMA\",\"stream\":\"s\",\"schema\":\x7b\x7d\x7d" =
      .error (.missingKey "key_properties") ∧
    parse_message "\x7b\"record\":\x7b\x7d\x7d" = .error (.missingKey "type") ∧
    parse_message "\x7b\"type\":\"STATE\"\x7d" = .error (.missingKey "value") :=
  ⟨parse_record_missing_stream,
   fun o hnd hwf htype sv hs hsch => parse_schema_missing_schema o hnd hwf htype hs hsch,
   by decide, by decide, by decide, by decide, by decide, by decide, by decide⟩

/-- Claim C5, witness: the general order conjuncts at concrete objects. -/
theorem C5_missing_fields_witness :
    parse_message (json_dumps (jobj [("type", .str "RECORD"), ("record", .obj .nil)])) =
      .error (.missingKey "stream") ∧
    parse_message (json_dumps (jobj [("type", .str "SCHEMA"), ("stream", .str "s")])) =
      .error (.missingKey "schema") :=
  ⟨C5_missing_fields.1 (jEntries [("type", .str "RECORD"), ("record", .obj .nil)])
      (by decide) (by decide) (by decide) (by decide),
   C5_missing_fields.2.1 (jEntries [("type", .str "SCHEMA"), ("stream", .str "s")])
      (by decide) (by decide) (by decide) (.str "s") (by decide) (by decide)⟩

/-- Claim C6: a record built without a version never exposes a `version`
key, in its canonical mapping or on the wire, while `version=3` yields
`"version": 3`; the absent case is omission, never an explicit null. -/
theorem C6_version_omission :
    (∀ stream record : Json, Message.asdict (.RecordMessage stream record .null) =
      .obj (.cons "type" (.str "RECORD") (.cons "stream" stream
        (.cons "record" record .nil)))) ∧
    (∀ stream record : Json,
      (Message.asdict (.RecordMessage stream record .null)).objLookup "version" = none) ∧
    (∀ stream record : Json, ∀ n : Int,
      (Message.asdict (.RecordMessage stream record (.num n))).objLookup "version" =
        some (.num n)) ∧
    format_message (Message.RecordMessage (.str "users") (.obj .nil) .null) =
      "\x7b\"type\": \"RECORD\", \"stream\": \"users\", \"record\": \x7b\x7d\x7d" ∧
    format_message (Message.RecordMessage (.str "users") (.obj .nil) (.num 3)) =
      "\x7b\"type\": \"RECORD\", \"stream\": \"users\", \"record\": \x7b\x7d, \"version\": 3\x7d" :=
  ⟨fun _ _ => rfl, fun _ _ => rfl, fun _ _ _ => rfl, by decide, by decide⟩

/-- Claim C7: messages compare equal exactly when their canonical mappings
are deep-structurally equal — key-order-insensitive for mappings (the
canonical form sorts keys), order-sensitive for sequences — so identical
field values give equal records and changing any one field (stream,
record payload, or version) breaks equality. -/
theorem C7_equality :
    (∀ m1 m2 : Message, Message.eq m1 m2 ↔ (m1.asdict).norm = (m2.asdict).norm) ∧
    (∀ m : Message, Message.eq m m) ∧
    Message.eq (Message.StateMessage (jobj [("a", .num 1), ("b", .num 2)]))
      (Message.StateMessage (jobj [("b", .num 2), ("a", .num 1)])) ∧
    ¬ Message.eq (Message.StateMessage (jarr [.num 1, .num 2]))
      (Message.StateMessage (jarr [.num 2, .num 1])) ∧
    (∀ s s' : String, ∀ r v : Json, ¬ s = s' →
      ¬ Message.eq (Message.RecordMessage (.str s) r v)
        (Message.RecordMessage (.str s') r v)) ∧
    (∀ s : String, ∀ r r' v : Json, ¬ pyEq r r' →
      ¬ Message.eq (Message.RecordMessage (.str s) r v)
        (Message.RecordMessage (.str s) r' v)) ∧
    (∀ s : String, ∀ r : Json, ∀ n : Int,
      ¬ Message.eq (Message.RecordMessage (.str s) r .null)
        (Message.RecordMessage (.str s) r (.num n))) ∧
    (∀ s : String, ∀ r : Json, ∀ n n' : Int, ¬ n = n' →
      ¬ Message.eq (Message.RecordMessage (.str s) r (.num n))
        (Message.RecordMessage (.str s) r (.num n'))) := by
  refine ⟨fun m1 m2 => Iff.rfl, fun m => rfl, by decide, by decide,
    fun s s' r v hne heq => ?_, fun s r r' v hne heq => ?_,
    fun s r n heq => ?_, fun s r n n' hne heq => ?_⟩
  · have h1 := (record_norm_lookup (.str s) r v).1
    have h2 := (record_norm_lookup (.str s') r v).1
    rw [heq, h2] at h1
    exact hne (by injection h1 with h; injection h with h; exact h.symm)
  · have h1 := (record_norm_lookup (.str s) r v).2.1
    have h2 := (record_norm_lookup (.str s) r' v).2.1
    rw [heq, h2] at h1
    exact hne (by injection h1 with h; exact h.symm)
  · have h1 := (record_norm_lookup (.str s) r .null).2.2
    have h2 := (record_norm_lookup (.str s) r (.num n)).2.2
    rw [heq, h2] at h1
    rw [if_pos rfl, if_neg (fun h => Json.noConfusion h)] at h1
    exact Option.noConfusion h1
  · have h1 := (record_norm_lookup (.str s) r (.num n)).2.2
    have h2 := (record_norm_lookup (.str s) r (.num n')).2.2
    rw [heq, h2] at h1
    rw [if_neg (fun h => Json.noConfusion h), if_neg (fun h => Json.noConfusion h)] at h1
    injection h1 with h
    rw [Json.norm, Json.norm] at h
    injection h with h
    exact hne h.symm

/-- Claim C7, witness: the field-change conjuncts at concrete inputs. -/
theorem C7_equality_witness :
    ¬ Message.eq (Message.RecordMessage (.str "a") (.obj .nil) .null)
      (Message.RecordMessage (.str "b") (.obj .nil) .null) ∧
    ¬ Message.eq (Message.RecordMessage (.str "a") (jobj [("x", .num 1)]) .null)
      (Message.RecordMessage (.str "a") (jobj [("x", .num 2)]) .null) ∧
    ¬ Message.eq (Message.RecordMessage (.str "a") (.obj .nil) (.num 1))
      (Message.RecordMessage (.str "a") (.obj .nil) (.num 2)) :=
  ⟨C7_equality.2.2.2.2.1 "a" "b" (.obj .nil) .null (by decide),
   C7_equality.2.2.2.2.2.1 "a" (jobj [("x", .num 1)]) (jobj [("x", .num 2)]) .null (by decide),
   C7_equality.2.2.2.2.2.2.2 "a" (.obj .nil) 1 2 (by decide)⟩

/-- Claim C8: serialization is a single line — no serialized message
contains a newline — and the documented record serializes to exactly the
documented string, which parses back to an equal record. -/
theorem C8_one_line :
    (∀ m : Message, '\n' ∉ (format_message m).data) ∧
    format_message (Message.RecordMessage (.str "users")
        (jobj [("id", .num 1), ("name", .str "Mary")]) .null) =
      "\x7b\"type\": \"RECORD\", \"stream\": \"users\", \"record\": \x7b\"id\": 1, \"name\": \"Mary\"\x7d\x7d" ∧
    parse_message
        "\x7b\"type\": \"RECORD\", \"stream\": \"users\", \"record\": \x7b\"id\": 1, \"name\": \"Mary\"\x7d\x7d" =
      .ok (some (Message.RecordMessage (.str "users")
        (jobj [("id", .num 1), ("name", .str "Mary")]) .null)) ∧
    Message.eq (Message.RecordMessage (.str "users")
        (jobj [("id", .num 1), ("name", .str "Mary")]) .null)
      (Message.RecordMessage (.str "users")
        (jobj [("id", .num 1), ("name", .str "Mary")]) .null) :=
  ⟨format_message_no_newline, by decide, by decide, by decide⟩

/-- Claim C8, witness: newline-freedom at a concrete message. -/
theorem C8_one_line_witness :
    '\n' ∉ (format_message (Message.StateMessage (jobj [("a", .str "b\nc")]))).data :=
  C8_one_line.1 (Message.StateMessage (jobj [("a", .str "b\nc")]))

/-- Claim C9: a present but unrecognized `type` tag — `ACTIVATE_VERSION`
included, even with all its fields present — makes `parse_message` return
`None` without raising. -/
theorem C9_unknown_tag :
    (∀ stream version : Json, stream.wf = true → version.wf = true →
      parse_message (format_message (.ActivateVersionMessage stream version)) = .ok none) ∧
    parse_message "\x7b\"type\": \"ACTIVATE_VERSION\", \"stream\": \"users\", \"version\": 2\x7d" =
      .ok none ∧
    parse_message "\x7b\"type\": \"FOO\", \"stream\": \"s\", \"record\": \x7b\x7d, \"value\": \x7b\x7d\x7d" =
      .ok none :=
  ⟨parse_format_activate, by decide, by decide⟩

/-- Claim C9, witness: the serialize-then-parse path at a concrete
ActivateVersion message. -/
theorem C9_unknown_tag_witness :
    parse_message (format_message (Message.ActivateVersionMessage (.str "users") (.num 2))) =
      .ok none :=
  C9_unknown_tag.1 (.str "users") (.num 2) (by decide) (by decide)

/-- Claim C10: a RECORD wire object with `"version": null` parses to the
same message as one with the key absent — `dict.get` returns `None` either
way — and serializing that message emits no `version` key. -/
theorem C10_null_version :
    (∀ stream record : Json, stream.wf = true → record.wf = true →
      parse_message (json_dumps (jobj [("type", .str "RECORD"), ("stream", stream),
        ("record", record), ("version", .null)])) =
        .ok (some (.RecordMessage stream record .null)) ∧
      parse_message (json_dumps (jobj [("type", .str "RECORD"), ("stream", stream),
        ("record", record), ("version", .null)])) =
        parse_message (format_message (.RecordMessage stream record .null))) ∧
    (∀ stream record : Json, Message.asdict (.RecordMessage stream record .null) =
      .obj (.cons "type" (.str "RECORD") (.cons "stream" stream
        (.cons "record" record .nil)))) ∧
    parse_message "\x7b\"type\": \"RECORD\", \"stream\": \"s\", \"record\": \x7b\x7d, \"version\": null\x7d" =
      parse_message "\x7b\"type\": \"RECORD\", \"stream\": \"s\", \"record\": \x7b\x7d\x7d" := by
  refine ⟨fun stream record hs hr => ⟨parse_null_version stream record hs hr, ?_⟩,
    fun _ _ => rfl, by decide⟩
  rw [parse_null_version stream record hs hr, parse_format_record stream record .null hs hr rfl]

/-- Claim C10, witness: the normalization at concrete values. -/
theorem C10_null_version_witness :
    parse_message (json_dumps (jobj [("type", .str "RECORD"), ("stream", .str "s"),
      ("record", .obj .nil), ("version", .null)])) =
      .ok (some (Message.RecordMessage (.str "s") (.obj .nil) .null)) :=
  ((C10_null_version.1 (.str "s") (.obj .nil) (by decide) (by decide)).1)

end Singer
